import Mathlib

/-!
Verification of the SCC comment stripper (src/tp_rc/scc/scc.hpp).

The scanner is embedded shallowly: the shared mutable state of the C++
class (input iterator, line counter, output buffer, warning stream,
feature flags) becomes an explicit record `St`, and each member function
becomes a state-passing Lean function of the same name.  Loops are
expressed by structural recursion on an explicit fuel argument; the
top-level run supplies fuel `input.length + 1`, which is always
sufficient because every loop iteration consumes at least one input
character.  Warnings, which the C++ code prints with printf, are
collected as a list of (line, message) pairs.

Two ghost counters `sCount` and `cCount` count the input characters
routed to the code channel and to the comment channel respectively.
They are incremented by `s_putch` and `c_putch`.  The three places where
the source emits replacement text that corresponds to no input character
(the single space after a closing block-comment delimiter, and the
optional empty-comment placeholders) go through `s_putch_repl`, which
appends to the output exactly like `s_putch` but does not count.
-/

namespace SCC

/-- NUL character, the C++ code's 0 default for qchar and schar. -/
def NUL : Char := Char.ofNat 0

/-- Horizontal tab. -/
def TAB : Char := Char.ofNat 9

/-- Newline. -/
def NL : Char := Char.ofNat 10

/-- Vertical tab. -/
def VT : Char := Char.ofNat 11

/-- Form feed. -/
def FF : Char := Char.ofNat 12

/-- Double quote. -/
def DQ : Char := Char.ofNat 34

/-- Single quote. -/
def SQ : Char := Char.ofNat 39

/-- Backslash. -/
def BSL : Char := Char.ofNat 92

/-- C locale isdigit. -/
def isdigitC (c : Char) : Bool := 48 ≤ c.toNat && c.toNat ≤ 57

/-- C locale isxdigit. -/
def isxdigitC (c : Char) : Bool :=
  isdigitC c || (97 ≤ c.toNat && c.toNat ≤ 102) || (65 ≤ c.toNat && c.toNat ≤ 70)

/-- C locale isalpha. -/
def isalphaC (c : Char) : Bool :=
  (97 ≤ c.toNat && c.toNat ≤ 122) || (65 ≤ c.toNat && c.toNat ≤ 90)

/-- C locale isalnum. -/
def isalnumC (c : Char) : Bool := isalphaC c || isdigitC c

/-- C locale isgraph. -/
def isgraphC (c : Char) : Bool := 33 ≤ c.toNat && c.toNat ≤ 126

/-- scc.hpp is_idchar. -/
def is_idchar (c : Char) : Bool := isalnumC c || c = '_'

/-- scc.hpp is_binary. -/
def is_binary (c : Char) : Bool := c = '0' || c = '1'

/-- scc.hpp is_octal. -/
def is_octal (c : Char) : Bool := 48 ≤ c.toNat && c.toNat ≤ 55

/-- Comment-region state (scc.hpp Comment typedef). -/
inductive Comment where
  | NonComment
  | CComment
  | CppComment
deriving DecidableEq, Repr

/-- Lexical features gated by the selected standard (scc.hpp Feature). -/
inductive Feature where
  | F_HEXFLOAT
  | F_RAWSTRING
  | F_DOUBLESLASH
  | F_UNICODE
  | F_BINARY
  | F_NUMPUNCT
  | F_UNIVERSAL
deriving DecidableEq, Repr

export Feature (F_HEXFLOAT F_RAWSTRING F_DOUBLESLASH F_UNICODE F_BINARY F_NUMPUNCT F_UNIVERSAL)

/-- scc.hpp featureToNameString. -/
def featureToNameString : Feature → String
  | F_HEXFLOAT => "Hexadecimal floating point constant"
  | F_RAWSTRING => "Raw string"
  | F_DOUBLESLASH => "Double slash comment"
  | F_UNICODE => "Unicode character or string"
  | F_BINARY => "Binary literal"
  | F_NUMPUNCT => "Numeric punctuation"
  | F_UNIVERSAL => "Universal character name"

/-- The Standard enum class is modelled by its underlying integer value, in
declaration order: C=0, C89=1, C90=2, C94=3, C99=4, C11=5, C18=6, CXX=7,
CXX98=8, CXX03=9, CXX11=10, CXX14=11, CXX17=12.  Values outside 0..12 are
the unrecognized standard codes a caller can produce by casting. -/
def standardToString (code : Int) : String :=
  if code = 0 then "C"
  else if code = 7 then "C++"
  else if code = 1 then "C89"
  else if code = 2 then "C90"
  else if code = 3 then "C94"
  else if code = 4 then "C99"
  else if code = 5 then "C11"
  else if code = 6 then "C18"
  else if code = 8 then "C++98"
  else if code = 9 then "C++03"
  else if code = 10 then "C++11"
  else if code = 11 then "C++14"
  else if code = 12 then "C++17"
  else ""

/-- The seven feature flags (scc.hpp f_DoubleSlash .. f_Universal). -/
structure Features where
  f_DoubleSlash : Bool := false
  f_RawString : Bool := false
  f_Unicode : Bool := false
  f_Binary : Bool := false
  f_HexFloat : Bool := false
  f_NumPunct : Bool := false
  f_Universal : Bool := false
deriving DecidableEq, Repr

/-- scc.hpp set_features: the switch on the standard, with its fallthrough
groups.  The default case throws, which is modelled by Except.error. -/
def set_features (code : Int) : Except String Features :=
  if code = 1 ∨ code = 2 ∨ code = 3 then
    Except.ok {}
  else if code = 0 ∨ code = 5 ∨ code = 6 then
    Except.ok { f_Unicode := true, f_HexFloat := true, f_Universal := true, f_DoubleSlash := true }
  else if code = 4 then
    Except.ok { f_HexFloat := true, f_Universal := true, f_DoubleSlash := true }
  else if code = 7 ∨ code = 12 then
    Except.ok { f_HexFloat := true, f_Binary := true, f_NumPunct := true, f_RawString := true,
                f_Unicode := true, f_Universal := true, f_DoubleSlash := true }
  else if code = 11 then
    Except.ok { f_Binary := true, f_NumPunct := true, f_RawString := true,
                f_Unicode := true, f_Universal := true, f_DoubleSlash := true }
  else if code = 10 then
    Except.ok { f_RawString := true, f_Unicode := true, f_Universal := true, f_DoubleSlash := true }
  else if code = 8 ∨ code = 9 then
    Except.ok { f_Universal := true, f_DoubleSlash := true }
  else
    Except.error "Invalid standard code"

/-- Constructor arguments of the SCC class (standard plus the four
behaviour switches and the two substitution characters). -/
structure Config where
  stdCode : Int
  printCommentsNotCode : Bool := false
  printEmptyCommentInsteadOfBlank : Bool := false
  warnAboutNestedCStyleComments : Bool := false
  qchar : Char := NUL
  schar : Char := NUL
deriving DecidableEq, Repr

/-- The mutable state of one SCC run: cursor (input and position), line
counter, warning-suppression lines, output and diagnostics, the ghost
routing counters, and the fixed configuration and feature set. -/
structure St where
  input : List Char
  pos : Nat
  nline : Int
  l_nest : Int
  l_cend : Int
  l_comment : Bool
  result : List Char
  warnings : List (Int × String)
  sCount : Nat
  cCount : Nat
  cfg : Config
  feat : Features
deriving DecidableEq, Repr

/-- scc.hpp putchar: append one character to the produced text. -/
def putchar (c : Char) (st : St) : St := { st with result := st.result ++ [c] }

/-- scc.hpp getch: consume the next input character, counting newlines;
EOF is modelled as none. -/
def getch (st : St) : Option Char × St :=
  match st.input[st.pos]? with
  | none => (none, st)
  | some c =>
    (some c, { st with pos := st.pos + 1,
                       nline := if c = NL then st.nline + 1 else st.nline })

/-- scc.hpp ungetch: push one character back, un-counting a newline.  The
iterator guard (no move when already at the beginning) is kept. -/
def ungetch (c : Char) (st : St) : St :=
  let st := { st with nline := if c = NL then st.nline - 1 else st.nline }
  if st.pos ≠ 0 then { st with pos := st.pos - 1 } else st

/-- scc.hpp peek: getch followed by ungetch of the same character. -/
def peek (st : St) : Option Char × St :=
  match getch st with
  | (none, st) => (none, st)
  | (some c, st) => (some c, ungetch c st)

/-- scc.hpp s_putch: route one input character to the code channel.  The
ghost counter sCount records the routing. -/
def s_putch (c : Char) (st : St) : St :=
  let st := if st.cfg.printCommentsNotCode = false then putchar c st else st
  let st := { st with sCount := st.sCount + 1 }
  if c = NL then { st with l_comment := false } else st

/-- Replacement-text variant of s_putch: appends to the output exactly
like s_putch, but does not count, because the emitted character (the
blank replacing a comment, or an empty-comment placeholder) corresponds
to no input character. -/
def s_putch_repl (c : Char) (st : St) : St :=
  let st := if st.cfg.printCommentsNotCode = false then putchar c st else st
  if c = NL then { st with l_comment := false } else st

/-- scc.hpp c_putch: route one input character to the comment channel. -/
def c_putch (c : Char) (st : St) : St :=
  let st := if st.cfg.printCommentsNotCode = true then putchar c st else st
  { st with cCount := st.cCount + 1 }

/-- scc.hpp s_putstr. -/
def s_putstr : List Char → St → St
  | [], st => st
  | c :: str, st => s_putstr str (s_putch c st)

/-- scc.hpp warning: one diagnostic record (printf in the source). -/
def warning (msg : String) (line : Int) (st : St) : St :=
  { st with warnings := st.warnings ++ [(line, msg)] }

/-- scc.hpp warning2. -/
def warning2 (s1 s2 : String) (line : Int) (st : St) : St :=
  warning (s1 ++ " " ++ s2) line st

/-- scc.hpp warn_feature. -/
def warn_feature (f : Feature) (st : St) : St :=
  warning (featureToNameString f ++ " feature used but not supported in "
            ++ standardToString st.cfg.stdCode) st.nline st

/-- scc.hpp put_quote_char: literal-body character, possibly substituted. -/
def put_quote_char (q c : Char) (st : St) : St :=
  if q = SQ ∧ st.cfg.qchar ≠ NUL then s_putch st.cfg.qchar st
  else if q = DQ ∧ st.cfg.schar ≠ NUL then s_putch st.cfg.schar st
  else s_putch c st

/-- scc.hpp put_quote_str. -/
def put_quote_str (q : Char) : List Char → St → St
  | [], st => st
  | c :: str, st => put_quote_str q str (put_quote_char q c st)

/-- Test a peeked character (EOF tests false, as the C charclass macros
do on EOF). -/
def opt_is (p : Option Char) (f : Char → Bool) : Bool :=
  match p with
  | some d => f d
  | none => false

/-- Inner while loop of endquote: scc.hpp lines 347-350.  Counts the run of
backslashes (the count includes the backslash already read by the caller)
and consumes the terminating character, if any. -/
def endq_bs : Nat → St → Nat × Option Char × St
  | 0, st => (1, none, st)
  | fuel + 1, st =>
    match getch st with
    | (none, st) => (1, none, st)
    | (some c2, st) =>
      if c2 = BSL then
        match endq_bs fuel st with
        | (n, r, st) => (n + 1, r, st)
      else (1, some c2, st)

/-- The for loop at scc.hpp line 354: echo bs_count backslashes. -/
def put_repeat (q c : Char) : Nat → St → St
  | 0, st => st
  | n + 1, st => put_repeat q c n (put_quote_char q c st)

/-- The for loop at scc.hpp line 371: emit pairs of backslashes; the loop
runs bs_count / 2 times, two characters per iteration. -/
def put_pairs (q : Char) : Nat → St → St
  | 0, st => st
  | n + 1, st => put_pairs q n (put_quote_str q [BSL, BSL] st)

/-- scc.hpp endquote: consume a quoted literal up to its closing quote,
handling backslash runs, backslash-newline continuations, bare newlines
(heuristic close with a warning) and EOF (warning). -/
def endquote (q : Char) (msg : String) : Nat → St → St
  | 0, st => st
  | fuel + 1, st =>
    match getch st with
    | (none, st) => warning2 "EOF in" msg st.nline st
    | (some c1, st) =>
      if c1 = q then s_putch q st
      else if c1 = BSL then
        match endq_bs fuel st with
        | (bs_count, none, st) =>
          /- Stream of backslashes and EOF: echo them, break; the loop
          exit then sees c1 equal to a backslash, so it emits the quote. -/
          s_putch q (put_repeat q c1 bs_count st)
        | (bs_count, some c2, st) =>
          if c2 = NL then
            let st := put_repeat q c1 (bs_count - 1) st
            let st := s_putch c1 st
            let st := s_putch c2 st
            endquote q msg fuel st
          else
            let st := put_pairs q (bs_count / 2) st
            if bs_count % 2 = 0 then
              let st := s_putch c2 st
              if c2 = q then st else endquote q msg fuel st
            else
              let st := put_quote_char q c1 st
              let st := put_quote_char q c2 st
              let st := if (c2 = 'u' ∨ c2 = 'U') ∧ st.feat.f_Universal = false then
                          warn_feature F_UNIVERSAL st
                        else st
              endquote q msg fuel st
      else if c1 = NL then
        let st := put_quote_char q c1 st
        warning2 "newline in" msg (st.nline - 1) st
      else
        endquote q msg fuel (put_quote_char q c1 st)

/-- scc.hpp read_bsnl: count the backslash-newline pairs immediately ahead,
consuming exactly them (using the two-character pushback). -/
def read_bsnl : Nat → St → Nat × St
  | 0, st => (0, st)
  | fuel + 1, st =>
    match peek st with
    | (none, st) => (0, st)
    | (some c, st) =>
      if c ≠ BSL then (0, st)
      else
        match getch st with
        | (_, st) =>
          match peek st with
          | (pc, st) =>
            if pc ≠ some NL then (0, ungetch BSL st)
            else
              match getch st with
              | (_, st) =>
                match read_bsnl fuel st with
                | (n, st) => (n + 1, st)

/-- scc.hpp write_bsnl: re-emit bsnl backslash-newline pairs through the
given output routine. -/
def write_bsnl (put : Char → St → St) : Nat → St → St
  | 0, st => st
  | n + 1, st => write_bsnl put n (put NL (put BSL st))

/-- scc.hpp c_comment: one step of the state machine inside a block
comment. -/
def c_comment (c : Char) (fuel : Nat) (st : St) : Comment × St :=
  if c = '*' then
    match read_bsnl fuel st with
    | (bsnl, st) =>
      match peek st with
      | (p, st) =>
        if p = some '/' then
          let st := { st with l_comment := true }
          let st := (getch st).2
          let st := c_putch '*' st
          let st := write_bsnl c_putch bsnl st
          let st := c_putch '/' st
          let st := s_putch_repl ' ' st
          let st := if st.cfg.printEmptyCommentInsteadOfBlank = true then
                      s_putch_repl '/' (s_putch_repl '*' st)
                    else st
          (Comment.NonComment, st)
        else
          (Comment.CComment, write_bsnl c_putch bsnl (c_putch c st))
  else if st.cfg.warnAboutNestedCStyleComments = true ∧ c = '/' then
    match peek st with
    | (p, st) =>
      if p = some '*' then
        let st := if st.l_nest ≠ st.nline then warning "nested C-style comment" st.nline st else st
        let st := { st with l_nest := st.nline }
        (Comment.CComment, c_putch c st)
      else
        (Comment.CComment, c_putch c st)
  else
    (Comment.CComment, c_putch c st)

/-- scc.hpp cpp_comment: one step of the state machine inside a line
comment; oc is the previously consumed character. -/
def cpp_comment (c oc : Char) (st : St) : Comment × St :=
  if c = NL ∧ oc ≠ BSL then
    (Comment.NonComment, s_putch c st)
  else
    (Comment.CppComment, c_putch c st)

/-- Digit loop of scan_ucn: collects up to nbytes hex digits, reporting
the digits read so far and the offending character on failure. -/
def ucn_loop : Nat → List Char → St → Bool × List Char × Option Char × St
  | 0, acc, st => (true, acc, none, st)
  | n + 1, acc, st =>
    match getch st with
    | (none, st) => (false, acc, none, st)
    | (some c, st) =>
      if isxdigitC c = false then (false, acc, some c, s_putch c st)
      else ucn_loop n (acc ++ [c]) (s_putch c st)

/-- scc.hpp scan_ucn: a backslash was consumed (not yet printed) and the
letter u or U was peeked; validate the following hex digits. -/
def scan_ucn (letter : Char) (nbytes : Nat) (st : St) : St :=
  let st := if st.feat.f_Universal = false then warn_feature F_UNIVERSAL st else st
  let st := s_putch BSL st
  match getch st with
  | (none, st) => st
  | (some c, st) =>
    let st := s_putch c st
    match ucn_loop nbytes [] st with
    | (true, _, _, st) => st
    | (false, digits, lastc, st) =>
      let tail := match lastc with
                  | some d => String.mk [d]
                  | none => ""
      warning ("Invalid UCN " ++ String.mk [BSL] ++ String.mk [letter]
                ++ String.mk digits ++ tail ++ " detected") st.nline st

/-- scc.hpp check_punct: consume a digit separator inside a numeric
literal, warning when the feature is missing or a neighbour is not a
valid digit; returns the character the main loop should treat as the
previous digit. -/
def check_punct (oc : Char) (digit_check : Char → Bool) (st : St) : Char × St :=
  match getch st with
  | (none, st) => (NUL, st)
  | (some sq, st) =>
    let st := s_putch sq st
    let st := if st.feat.f_NumPunct = false then warn_feature F_NUMPUNCT st else st
    if digit_check oc = false then
      (sq, warning "Single quote in numeric context not preceded by a valid digit" st.nline st)
    else
      match peek st with
      | (none, st) => (sq, warning "Single quote in numeric context followed by EOF" st.nline st)
      | (some pc, st) =>
        if digit_check pc = false then
          (pc, warning "Single quote in numeric context not followed by a valid digit" st.nline st)
        else (pc, st)

/-- Digit loop of parse_exponent. -/
def exp_digits : Nat → Nat → St → Nat × St
  | 0, count, st => (count, st)
  | fuel + 1, count, st =>
    match peek st with
    | (none, st) => (count, st)
    | (some pc, st) =>
      if isdigitC pc then
        match getch st with
        | (none, st) => (count, st)
        | (some d, st) => exp_digits fuel (count + 1) (s_putch d st)
      else (count, st)

/-- scc.hpp parse_exponent. -/
def parse_exponent (fuel : Nat) (st : St) : St :=
  match getch st with
  | (none, st) => st
  | (some c, st) =>
    let st := s_putch c st
    match peek st with
    | (pc, st) =>
      let st := if pc = some '+' ∨ pc = some '-' then
                  match getch st with
                  | (some d, st) => s_putch d st
                  | (none, st) => st
                else st
      match exp_digits fuel 0 st with
      | (count, st) =>
        if count = 0 then
          warning ("Exponent " ++ String.mk [c]
                    ++ " not followed by (optional sign and) one or more digits") st.nline st
        else st

/-- Main loop of parse_hex: digits, separators and dots; returns the
character that stopped the loop (for the exponent check) and the
hex-float warned flag. -/
def hex_loop : Nat → Char → Bool → St → Option Char × Bool × St
  | 0, _, warned, st => (none, warned, st)
  | fuel + 1, oc, warned, st =>
    match peek st with
    | (none, st) => (none, warned, st)
    | (some pc, st) =>
      if pc = SQ then
        match check_punct oc isxdigitC st with
        | (oc2, st) => hex_loop fuel oc2 warned st
      else if isxdigitC pc ∨ pc = '.' then
        let st := if pc = '.' ∧ st.feat.f_HexFloat = false ∧ warned = false then
                    warn_feature F_HEXFLOAT st
                  else st
        let warned := if pc = '.' ∧ st.feat.f_HexFloat = false then true else warned
        match getch st with
        | (none, st) => (none, warned, st)
        | (some d, st) => hex_loop fuel pc warned (s_putch d st)
      else (some pc, warned, st)

/-- scc.hpp parse_hex: the leading 0 was consumed by the caller; consume
x or X and the hex constant after it. -/
def parse_hex (fuel : Nat) (st : St) : St :=
  let st := s_putch '0' st
  match getch st with
  | (none, st) => st
  | (some c, st) =>
    let st := s_putch c st
    match hex_loop fuel c false st with
    | (pc, warned, st) =>
      if pc = some 'p' ∨ pc = some 'P' then
        let st := if st.feat.f_HexFloat = false ∧ warned = false then
                    warn_feature F_HEXFLOAT st
                  else st
        parse_exponent fuel st
      else st

/-- Main loop of parse_binary. -/
def bin_loop : Nat → Char → St → Option Char × St
  | 0, _, st => (none, st)
  | fuel + 1, oc, st =>
    match peek st with
    | (none, st) => (none, st)
    | (some pc, st) =>
      if pc = SQ then
        match check_punct oc is_binary st with
        | (oc2, st) => bin_loop fuel oc2 st
      else if is_binary pc then
        match getch st with
        | (none, st) => (none, st)
        | (some d, st) => bin_loop fuel pc (s_putch d st)
      else (some pc, st)

/-- scc.hpp parse_binary. -/
def parse_binary (fuel : Nat) (st : St) : St :=
  let st := if st.feat.f_Binary = false then warn_feature F_BINARY st else st
  let st := s_putch '0' st
  match getch st with
  | (none, st) => st
  | (some c, st) =>
    let st := s_putch c st
    match bin_loop fuel c st with
    | (some pc, st) =>
      if isdigitC pc then
        warning ("Non-binary digit " ++ String.mk [pc] ++ " in binary constant") st.nline st
      else st
    | (none, st) => st

/-- Main loop of parse_octal. -/
def oct_loop : Nat → Char → St → Option Char × St
  | 0, _, st => (none, st)
  | fuel + 1, oc, st =>
    match peek st with
    | (none, st) => (none, st)
    | (some pc, st) =>
      if pc = SQ then
        match check_punct oc is_octal st with
        | (oc2, st) => oct_loop fuel oc2 st
      else if is_octal pc then
        match getch st with
        | (none, st) => (none, st)
        | (some d, st) => oct_loop fuel pc (s_putch d st)
      else (some pc, st)

/-- scc.hpp parse_octal. -/
def parse_octal (fuel : Nat) (st : St) : St :=
  let st := s_putch '0' st
  match getch st with
  | (none, st) => st
  | (some c, st) =>
    let st := s_putch c st
    match oct_loop fuel c st with
    | (some pc, st) =>
      if isdigitC pc then
        warning ("Non-octal digit " ++ String.mk [pc] ++ " in octal constant") st.nline st
      else st
    | (none, st) => st

/-- Main loop of parse_decimal. -/
def dec_loop : Nat → Char → St → Option Char × St
  | 0, _, st => (none, st)
  | fuel + 1, oc, st =>
    match peek st with
    | (none, st) => (none, st)
    | (some pc, st) =>
      if pc = SQ then
        match check_punct oc isdigitC st with
        | (oc2, st) => dec_loop fuel oc2 st
      else if isdigitC pc then
        match getch st with
        | (none, st) => (none, st)
        | (some d, st) => dec_loop fuel pc (s_putch d st)
      else (some pc, st)

/-- scc.hpp parse_decimal. -/
def parse_decimal (c : Char) (fuel : Nat) (st : St) : St :=
  let st := s_putch c st
  match peek st with
  | (none, st) => st
  | (some pc, st) =>
    if isdigitC pc ∨ pc = SQ then
      match getch st with
      | (none, st) => st
      | (some c2, st) =>
        let st := s_putch pc st
        match dec_loop fuel c2 st with
        | (some e, st) =>
          if e = 'e' ∨ e = 'E' then parse_exponent fuel st else st
        | (none, st) => st
    else st

/-- scc.hpp parse_number: dispatch on the leading characters of a numeric
literal. -/
def parse_number (c : Char) (fuel : Nat) (st : St) : St :=
  match peek st with
  | (pc, st) =>
    if c ≠ '0' then parse_decimal c fuel st
    else if pc = some 'x' ∨ pc = some 'X' then parse_hex fuel st
    else if pc = some 'b' ∨ pc = some 'B' then parse_binary fuel st
    else if opt_is pc (fun d => is_octal d || d = SQ) then parse_octal fuel st
    else if pc = some 'e' ∨ pc = some 'E' ∨ pc = some '.' then parse_decimal c fuel st
    else if opt_is pc isdigitC then s_putch c st
    else s_putch c st

/-- scc.hpp read_remainder_of_identifier. -/
def read_remainder_of_identifier : Nat → St → St
  | 0, st => st
  | fuel + 1, st =>
    match peek st with
    | (none, st) => st
    | (some c, st) =>
      if is_idchar c then
        match getch st with
        | (none, st) => st
        | (some d, st) => read_remainder_of_identifier fuel (s_putch d st)
      else st

/-- scc.hpp could_be_string_literal. -/
def could_be_string_literal (c : Char) : Bool :=
  c = 'U' || c = 'u' || c = 'L' || c = 'R' || c = '8'

/-- scc.hpp dq_reg_prefix table. -/
def dq_reg_pfx : List (List Char) := [['L'], ['u'], ['U'], ['u', '8']]

/-- scc.hpp dq_raw_prefix table. -/
def dq_raw_pfx : List (List Char) := [['R'], ['L', 'R'], ['u', 'R'], ['U', 'R'], ['u', '8', 'R']]

/-- scc.hpp valid_dq_raw_prefix. -/
def valid_dq_raw_pfx (p : List Char) : Bool := dq_raw_pfx.contains p

/-- scc.hpp valid_dq_reg_prefix. -/
def valid_dq_reg_pfx (p : List Char) : Bool := dq_reg_pfx.contains p

/-- scc.hpp valid_dq_prefix. -/
def valid_dq_pfx (p : List Char) : Bool := valid_dq_reg_pfx p || valid_dq_raw_pfx p

/-- Characters that may not appear in a raw-string d-char-sequence (the
strchr set at scc.hpp line 834). -/
def bad_mark_char (c : Char) : Bool :=
  c = DQ || c = ')' || c = ' ' || c = BSL || c = TAB || c = VT || c = FF || c = NL

/-- scc.hpp raw_scan_marker: read the d-char-sequence up to the opening
parenthesis; acc is the marker collected so far (markstr). -/
def raw_scan_marker (pfx : List Char) : Nat → List Char → St → Bool × List Char × St
  | 0, acc, st => (false, acc, st)
  | fuel + 1, acc, st =>
    match getch st with
    | (none, st) =>
      let st := warning ("Unexpected EOF in raw string d-char-sequence: "
                  ++ String.mk pfx ++ String.mk [DQ] ++ String.mk acc) st.nline st
      (false, acc, st)
    | (some c, st) =>
      if c = '(' then (true, acc, st)
      else if bad_mark_char c ∨ 16 ≤ acc.length then
        let msg :=
          if 16 ≤ acc.length then
            "Too long a raw string d-char-sequence: "
              ++ String.mk pfx ++ String.mk [DQ] ++ String.mk (acc ++ [c])
          else
            "Invalid mark character (code " ++ toString c.toNat
              ++ (if isgraphC c then
                    " " ++ String.mk [SQ]
                      ++ (if c = SQ ∨ c = BSL then String.mk [BSL] else "")
                      ++ String.mk [c] ++ String.mk [SQ]
                  else "")
              ++ ") in d-char-sequence: "
              ++ String.mk pfx ++ String.mk [DQ] ++ String.mk acc
        let st := warning msg st.nline st
        (false, acc ++ [c], st)
      else raw_scan_marker pfx fuel (acc ++ [c]) st

mutual

/-- scc.hpp raw_scan_string, outer while loop: copy the raw-string body
verbatim until a right parenthesis starts a candidate close sequence. -/
def raw_outer (markstr : List Char) (line1 : Int) : Nat → St → St
  | 0, st => st
  | fuel + 1, st =>
    match getch st with
    | (none, st) => warning "Unexpected EOF in raw string starting at this line" line1 st
    | (some c, st) =>
      if c ≠ ')' then raw_outer markstr line1 fuel (s_putch c st)
      else raw_inner markstr line1 0 fuel st

/-- scc.hpp raw_scan_string, inner while loop: a right parenthesis and
len marker characters have been consumed but not emitted; look for the
rest of the close sequence, re-emitting the buffered text on mismatch. -/
def raw_inner (markstr : List Char) (line1 : Int) (len : Nat) : Nat → St → St
  | 0, st => st
  | fuel + 1, st =>
    match getch st with
    | (none, st) => warning "Unexpected EOF in raw string starting at this line" line1 st
    | (some c, st) =>
      if c = DQ ∧ len = markstr.length then
        s_putch DQ (s_putstr markstr (s_putch ')' st))
      else if markstr[len]? = some c then
        raw_inner markstr line1 (len + 1) fuel st
      else if c = ')' then
        raw_inner markstr line1 0 fuel (s_putstr (markstr.take len) (s_putch ')' st))
      else
        raw_outer markstr line1 fuel (s_putch c (s_putstr (markstr.take len) (s_putch ')' st)))

end

/-- scc.hpp parse_raw_string: the opening double quote was consumed (and
the prefix printed); scan the marker, then either the raw body or, when
the marker is invalid, degrade to an ordinary string literal. -/
def parse_raw_string (pfx : List Char) (fuel : Nat) (st : St) : St :=
  match raw_scan_marker pfx fuel [] st with
  | (true, mark, st) =>
    let st := s_putch DQ st
    let st := s_putstr mark st
    let st := s_putch '(' st
    raw_outer mark st.nline fuel st
  | (false, mark, st) =>
    let st := s_putch DQ st
    let st := put_quote_str DQ mark st
    endquote DQ "string literal" fuel st

/-- scc.hpp parse_dq_string. -/
def parse_dq_string (pfx : List Char) (fuel : Nat) (st : St) : St :=
  if valid_dq_raw_pfx pfx then
    let st := if st.feat.f_RawString = false then warn_feature F_RAWSTRING st else st
    let st := s_putstr pfx st
    parse_raw_string pfx fuel st
  else
    let st := if pfx ≠ ['L'] ∧ st.feat.f_Unicode = false then warn_feature F_UNICODE st else st
    let st := s_putstr pfx st
    let st := s_putch DQ st
    endquote DQ "string literal" fuel st

/-- Loop of process_poss_string_literal: pfx is the accumulated prefix
(the prefix array with idx characters). -/
def poss_loop (pfx : List Char) : Nat → St → St
  | 0, st => st
  | fuel + 1, st =>
    match peek st with
    | (none, st) => st
    | (some c, st) =>
      if c = SQ then
        let st := s_putstr pfx st
        match getch st with
        | (none, st) => st
        | (some c2, st) => endquote c2 "character constant" fuel (s_putch c2 st)
      else if c = DQ then
        if valid_dq_pfx pfx then
          match getch st with
          | (none, st) => st
          | (some _, st) => parse_dq_string pfx fuel st
        else
          let st := s_putstr pfx st
          match getch st with
          | (none, st) => st
          | (some c2, st) => endquote c2 "character constant" fuel (s_putch c2 st)
      else if could_be_string_literal c then
        match getch st with
        | (none, st) => st
        | (some c2, st) =>
          let pfx2 := pfx ++ [c2]
          if pfx2.length > 3 then
            read_remainder_of_identifier fuel (s_putstr pfx2 st)
          else poss_loop pfx2 fuel st
      else
        read_remainder_of_identifier fuel (s_putstr pfx st)

/-- scc.hpp process_poss_string_literal. -/
def process_poss_string_literal (c : Char) (fuel : Nat) (st : St) : St :=
  poss_loop [c] fuel st

/-- scc.hpp parse_identifier. -/
def parse_identifier (c : Char) (fuel : Nat) (st : St) : St :=
  if could_be_string_literal c then process_poss_string_literal c fuel st
  else read_remainder_of_identifier fuel (s_putch c st)

/-- scc.hpp non_comment: one step of the state machine in plain code. -/
def non_comment (c : Char) (fuel : Nat) (st : St) : Comment × St :=
  if c = '*' then
    match read_bsnl fuel st with
    | (bsnl, st) =>
      match peek st with
      | (p, st) =>
        if p = some '/' then
          let st := (getch st).2
          let st := s_putch '*' st
          let st := write_bsnl s_putch bsnl st
          let st := s_putch '/' st
          let st := if st.l_cend ≠ st.nline then
                      warning "C-style comment end marker ('*/') not in a comment" st.nline st
                    else st
          (Comment.NonComment, { st with l_cend := st.nline })
        else
          (Comment.NonComment, write_bsnl s_putch bsnl (s_putch c st))
  else if c = SQ then
    (Comment.NonComment, endquote c "character constant" fuel (s_putch c st))
  else if c = DQ then
    (Comment.NonComment, endquote c "string literal" fuel (s_putch c st))
  else if c = '/' then
    match read_bsnl fuel st with
    | (bsnl, st) =>
      match peek st with
      | (p, st) =>
        if p = some '*' then
          let st := (getch st).2
          let st := c_putch '/' st
          let st := write_bsnl c_putch bsnl st
          let st := c_putch '*' st
          let st := if st.cfg.printEmptyCommentInsteadOfBlank = true then
                      s_putch_repl '*' (s_putch_repl '/' st)
                    else st
          (Comment.CComment, st)
        else if st.feat.f_DoubleSlash = false ∧ p = some '/' then
          let st := warn_feature F_DOUBLESLASH st
          match getch st with
          | (none, st) => (Comment.NonComment, st)
          | (some c2, st) =>
            let st := s_putch c2 st
            let st := write_bsnl s_putch bsnl st
            (Comment.NonComment, s_putch c2 st)
        else if st.feat.f_DoubleSlash = true ∧ p = some '/' then
          match getch st with
          | (none, st) => (Comment.CppComment, st)
          | (some c2, st) =>
            let st := c_putch c2 st
            let st := write_bsnl c_putch bsnl st
            let st := c_putch c2 st
            let st := if st.cfg.printEmptyCommentInsteadOfBlank = true then
                        s_putch_repl '/' (s_putch_repl '/' st)
                      else st
            (Comment.CppComment, st)
        else
          (Comment.NonComment, write_bsnl s_putch bsnl (s_putch c st))
  else if isdigitC c then
    (Comment.NonComment, parse_number c fuel st)
  else if c = '.' then
    match peek st with
    | (p, st) =>
      if opt_is p isdigitC then
        (Comment.NonComment, parse_number c fuel st)
      else if isalnumC c ∨ c = '_' then
        (Comment.NonComment, parse_identifier c fuel st)
      else
        (Comment.NonComment, s_putch c st)
  else if isalnumC c ∨ c = '_' then
    (Comment.NonComment, parse_identifier c fuel st)
  else if c = BSL then
    match peek st with
    | (p, st) =>
      if p = some 'u' then (Comment.NonComment, scan_ucn 'u' 4 st)
      else if p = some 'U' then (Comment.NonComment, scan_ucn 'U' 8 st)
      else (Comment.NonComment, s_putch c st)
  else
    (Comment.NonComment, s_putch c st)

/-- Main for loop of scc.hpp scc(): dispatch each character through the
comment-region state machine; oc is the previously consumed character
(initially the NUL character). -/
def scc_loop : Nat → Char → Comment → St → Comment × St
  | 0, _, status, st => (status, st)
  | fuel + 1, oc, status, st =>
    match getch st with
    | (none, st) => (status, st)
    | (some c, st) =>
      match (match status with
             | Comment.CComment => c_comment c fuel st
             | Comment.CppComment => cpp_comment c oc st
             | Comment.NonComment => non_comment c fuel st) with
      | (status2, st) => scc_loop fuel c status2 st

/-- scc.hpp scc(): initialize the per-run counters, run the loop, and
warn about an unterminated comment when the input ends inside one. -/
def scc (fuel : Nat) (st : St) : Comment × St :=
  let st := { st with l_nest := 0, l_cend := 0, nline := 1 }
  match scc_loop fuel NUL Comment.NonComment st with
  | (status, st) =>
    if status ≠ Comment.NonComment then
      (status, warning "unterminated C-style comment" st.nline st)
    else (status, st)

/-- Fresh state for one run. -/
def mkSt (input : List Char) (cfg : Config) (feat : Features) : St :=
  { input := input, pos := 0, nline := 0, l_nest := 0, l_cend := 0, l_comment := false,
    result := [], warnings := [], sCount := 0, cCount := 0, cfg := cfg, feat := feat }

/-- The SCC constructor body: derive the feature set (none on an invalid
standard code, which the source turns into a caught exception that
clears the output), then scan with always-sufficient fuel.  Returns the
final comment-region status and state when construction succeeds. -/
def scc_full (input : List Char) (cfg : Config) : Option (Comment × St) :=
  match set_features cfg.stdCode with
  | Except.error _ => none
  | Except.ok feat => some (scc (input.length + 1) (mkSt input cfg feat))

/-- The produced text (m_result): empty when construction failed. -/
def SCC_result (input : List Char) (cfg : Config) : List Char :=
  match scc_full input cfg with
  | none => []
  | some (_, st) => st.result

/-- The success flag (m_ok). -/
def SCC_ok (input : List Char) (cfg : Config) : Bool :=
  (scc_full input cfg).isSome

/-- The diagnostics of a run (empty when construction failed). -/
def SCC_warnings (input : List Char) (cfg : Config) : List (Int × String) :=
  match scc_full input cfg with
  | none => []
  | some (_, st) => st.warnings

/-- Total number of input characters routed to the two channels. -/
def tot (st : St) : Nat := st.sCount + st.cCount

/-- Logical input after backslash-newline line splicing. -/
def splice : List Char → List Char
  | [] => []
  | [c] => [c]
  | c :: d :: t =>
    if c = BSL ∧ d = NL then splice t else c :: splice (d :: t)

/-- A configuration with the given standard code and all other
constructor arguments at their C++ default values. -/
def cfgStd (code : Int) : Config := { stdCode := code }

/-- A comment-output configuration (printCommentsNotCode set). -/
def cfgComments (code : Int) : Config := { stdCode := code, printCommentsNotCode := true }

/-- The state scc() starts its loop from. -/
def scc_start (input : List Char) (cfg : Config) (feat : Features) : St :=
  { mkSt input cfg feat with l_nest := 0, l_cend := 0, nline := 1 }

/-- Final state of a successful run (dummy fresh state if construction
failed). -/
def finalSt (input : List Char) (cfg : Config) : St :=
  match scc_full input cfg with
  | none => mkSt input cfg {}
  | some (_, st) => st

/-- Number of newline characters in a list. -/
def countNL (l : List Char) : Nat := l.count NL

/-- One cursor operation: consume a character, or push one back. -/
inductive CursorOp where
  | get
  | unget (c : Char)
deriving DecidableEq, Repr

/-- Apply one cursor operation. -/
def applyOp (st : St) : CursorOp → St
  | CursorOp.get => (getch st).2
  | CursorOp.unget c => ungetch c st

/-- Apply a sequence of cursor operations. -/
def applyOps (st : St) : List CursorOp → St
  | [] => st
  | op :: ops => applyOps (applyOp st op) ops

/-- The scanner only ever pushes back the character it has just read:
every ungetch call in scc.hpp (inside peek, and the double pushback in
read_bsnl) passes the character sitting immediately before the cursor,
with the cursor not at the beginning.  opsWF states that a trace of
cursor operations has this shape. -/
def opsWF (st : St) : List CursorOp → Bool
  | [] => true
  | op :: ops =>
    (match op with
     | CursorOp.get => true
     | CursorOp.unget c => decide (st.pos ≠ 0) && st.input[st.pos - 1]? == some c)
    && opsWF (applyOp st op) ops

/-- The closing sequence of a raw string literal with the given
d-char-sequence: a right parenthesis, the marker, a double quote. -/
def closeOf (mark : List Char) : List Char := ')' :: (mark ++ [DQ])

/-- Does the closing sequence of mark occur in s at position i? -/
def closeAt (mark s : List Char) (i : Nat) : Bool :=
  (s.drop i).take (closeOf mark).length == closeOf mark

/-- A concrete scanner state entering a raw-string body whose text contains
a close-paren that starts but fails to complete the closing sequence. -/
def c2St : St :=
  mkSt (['x', ')', 'a'] ++ closeOf ['a', 'b'] ++ ['w']) (cfgStd 12) { f_RawString := true }

/-- Routing conservation: running from st to st2 leaves the input text
unchanged, moves the cursor forward without overrunning the input, and
routes to the two channels exactly the characters it consumed plus k
characters its caller had already consumed on its behalf. -/
def Routed (k : Int) (st st2 : St) : Prop :=
  st2.input = st.input ∧ st.pos ≤ st2.pos ∧ st2.pos ≤ st.input.length ∧
  (tot st2 : Int) + st.pos = tot st + st2.pos + k

/-! Cursor lemmas. -/

theorem getch_fst (st : St) : (getch st).1 = st.input[st.pos]? := by
  unfold getch
  cases st.input[st.pos]? <;> rfl

theorem getch_none {st : St} (h : st.input[st.pos]? = none) : getch st = (none, st) := by
  unfold getch
  rw [h]

theorem getch_some {st : St} {c : Char} (h : st.input[st.pos]? = some c) :
    getch st = (some c, { st with pos := st.pos + 1,
                                  nline := if c = NL then st.nline + 1 else st.nline }) := by
  unfold getch
  rw [h]

theorem ungetch_getch {st : St} {c : Char} :
    ungetch c { st with pos := st.pos + 1, nline := if c = NL then st.nline + 1 else st.nline }
      = st := by
  unfold ungetch
  by_cases hc : c = NL <;> simp [hc]

theorem peek_eq (st : St) : peek st = (st.input[st.pos]?, st) := by
  cases h : st.input[st.pos]? with
  | none => simp [peek, getch, h]
  | some c => simp [peek, getch, h, ungetch_getch]

/-! Normal forms for the output primitives. -/

theorem s_putch_eq (c : Char) (st : St) :
    s_putch c st =
      { st with result := if st.cfg.printCommentsNotCode = false then st.result ++ [c] else st.result,
                sCount := st.sCount + 1,
                l_comment := if c = NL then false else st.l_comment } := by
  unfold s_putch putchar
  split <;> split <;> rfl

theorem s_putch_repl_eq (c : Char) (st : St) :
    s_putch_repl c st =
      { st with result := if st.cfg.printCommentsNotCode = false then st.result ++ [c] else st.result,
                l_comment := if c = NL then false else st.l_comment } := by
  unfold s_putch_repl putchar
  split <;> split <;> rfl

theorem c_putch_eq (c : Char) (st : St) :
    c_putch c st =
      { st with result := if st.cfg.printCommentsNotCode = true then st.result ++ [c] else st.result,
                cCount := st.cCount + 1 } := by
  unfold c_putch putchar
  split <;> rfl

theorem warning_eq (msg : String) (line : Int) (st : St) :
    warning msg line st = { st with warnings := st.warnings ++ [(line, msg)] } := rfl

/-- C10: peek returns exactly the character that the immediately
following getch returns, and it leaves the whole cursor state (position
and line counter included) unchanged; at end of input it returns EOF
without moving.  The getch-then-ungetch pair inside peek is an identity
on the state. -/
theorem c10_peek_getch_identity (st : St) :
    (peek st).2 = st ∧ (peek st).1 = (getch st).1 := by
  rw [peek_eq, getch_fst]
  exact ⟨rfl, rfl⟩

/-- Taking one more element appends the element found at that index. -/
theorem take_snoc {l : List Char} {n : Nat} {c : Char} (h : l[n]? = some c) :
    l.take (n + 1) = l.take n ++ [c] := by
  rw [List.take_succ, h]
  rfl

/-- Newline count of a list extended by one character. -/
theorem countNL_snoc (l : List Char) (c : Char) :
    countNL (l ++ [c]) = countNL l + (if c = NL then 1 else 0) := by
  unfold countNL
  rw [List.count_append]
  by_cases hc : c = NL <;> simp [hc, List.count_cons, List.count_nil]

/-- C9 counterexample: the line counter does not equal the number of
newline characters consumed.  Scanning the one-character input a
consumes no newline, yet the final line counter is 1 (the scan starts
counting lines at 1), so the claimed equality fails. -/
theorem c9_counterexample :
    (finalSt ['a'] (cfgStd 6)).nline = 1 ∧
    countNL ((finalSt ['a'] (cfgStd 6)).input.take (finalSt ['a'] (cfgStd 6)).pos) = 0 ∧
    (1 : Int) ≠ (0 : Int) := by decide

/-- C9 (amended): over any trace of cursor operations the scanner can
perform (getch anywhere; ungetch only of the character just before the
cursor, which is how scc.hpp always uses it), the line counter changes
by exactly the net number of newline characters consumed: consuming a
newline increments it and pushing one back decrements it symmetrically.
Since scc() starts the scan with the counter at 1 and position 0, the
counter during a scan equals one plus the number of newlines consumed. -/
theorem c9_line_counter (st : St) (ops : List CursorOp) (h : opsWF st ops = true) :
    (applyOps st ops).input = st.input ∧
    (applyOps st ops).nline + (countNL (st.input.take st.pos) : Int)
      = st.nline + (countNL ((applyOps st ops).input.take (applyOps st ops).pos) : Int) := by
  induction ops generalizing st with
  | nil => simp [applyOps]
  | cons op ops ih =>
    rw [opsWF.eq_def] at h
    rw [Bool.and_eq_true] at h
    rw [applyOps]
    cases op with
    | get =>
      have h2 := h.2
      rw [applyOp] at h2 ⊢
      cases hg : st.input[st.pos]? with
      | none =>
        rw [getch_none hg] at h2 ⊢
        exact ih _ h2
      | some c =>
        rw [getch_some hg] at h2 ⊢
        obtain ⟨hinp, hline⟩ := ih _ h2
        dsimp only at hinp hline h2 ⊢
        refine ⟨hinp, ?_⟩
        have hcount : (countNL (st.input.take (st.pos + 1)) : Int)
            = countNL (st.input.take st.pos) + (if c = NL then 1 else 0) := by
          rw [take_snoc hg, countNL_snoc]
          split <;> push_cast <;> ring
        rw [hcount] at hline
        by_cases hc : c = NL <;> simp only [hc, if_true, if_false, hinp] at hline ⊢ <;> omega
    | unget c =>
      simp only [decide_eq_true_eq, Bool.and_eq_true, beq_iff_eq] at h
      rcases h with ⟨⟨hpos, hgc⟩, hwf⟩
      rw [applyOp] at hwf ⊢
      have hun : ungetch c st
          = { st with pos := st.pos - 1,
                      nline := if c = NL then st.nline - 1 else st.nline } := by
        unfold ungetch
        split <;> simp_all
      rw [hun] at hwf ⊢
      obtain ⟨hinp, hline⟩ := ih _ hwf
      dsimp only at hinp hline ⊢
      refine ⟨hinp, ?_⟩
      have hgc2 : st.input[st.pos - 1]? = some c := hgc
      have hcount : (countNL (st.input.take st.pos) : Int)
          = countNL (st.input.take (st.pos - 1)) + (if c = NL then 1 else 0) := by
        have hp : st.pos = (st.pos - 1) + 1 := by omega
        rw [hp, take_snoc hgc2, countNL_snoc]
        split <;> push_cast <;> ring
      rw [hcount]
      by_cases hc : c = NL <;> simp only [hc, if_true, if_false, hinp] at hline ⊢ <;> omega

/-- Witness for c9_line_counter on a concrete trace: read a, read a
newline, then push the newline back. -/
theorem c9_line_counter_witness :
    opsWF (mkSt ['a', NL, 'b'] (cfgStd 6) {}) [CursorOp.get, CursorOp.get, CursorOp.unget NL]
        = true ∧
    ((applyOps (mkSt ['a', NL, 'b'] (cfgStd 6) {})
        [CursorOp.get, CursorOp.get, CursorOp.unget NL]).input
      = (mkSt ['a', NL, 'b'] (cfgStd 6) {}).input ∧
     (applyOps (mkSt ['a', NL, 'b'] (cfgStd 6) {})
        [CursorOp.get, CursorOp.get, CursorOp.unget NL]).nline
        + (countNL ((mkSt ['a', NL, 'b'] (cfgStd 6) {}).input.take
            (mkSt ['a', NL, 'b'] (cfgStd 6) {}).pos) : Int)
      = (mkSt ['a', NL, 'b'] (cfgStd 6) {}).nline
        + (countNL ((applyOps (mkSt ['a', NL, 'b'] (cfgStd 6) {})
            [CursorOp.get, CursorOp.get, CursorOp.unget NL]).input.take
            (applyOps (mkSt ['a', NL, 'b'] (cfgStd 6) {})
              [CursorOp.get, CursorOp.get, CursorOp.unget NL]).pos) : Int)) :=
  ⟨by decide, c9_line_counter _ _ (by decide)⟩

/-- C1: stripping the input a/*b*/c under the default configuration
yields exactly a-space-c; the comment body and both delimiters are
routed to the comment channel (they are precisely what a comment-output
run produces) and no diagnostics are emitted. -/
theorem c1_block_comment_replaced :
    SCC_result "a/*b*/c".toList (cfgStd 6) = "a c".toList ∧
    SCC_result "a/*b*/c".toList (cfgComments 6) = "/*b*/".toList ∧
    SCC_warnings "a/*b*/c".toList (cfgStd 6) = [] := by decide

/-- C3 counterexample: under C18 (double-slash comments enabled) the
code-channel output for a//b-newline-c is a, newline, c.  There is no
replacement space for a line comment, so the output is not the claimed
a-space-c followed by c. -/
theorem c3_counterexample :
    SCC_result "a//b\nc".toList (cfgStd 6) = "a\nc".toList ∧
    SCC_result "a//b\nc".toList (cfgStd 6) ≠ "a c\nc".toList := by decide

/-- C3 (amended): under a standard with double-slash comments the line
comment (both slashes and the body) is routed to the comment channel and
replaced by nothing in the code channel; the terminating newline stays
in the code channel, so the output is a, newline, c.  Under a standard
lacking the feature the two slashes are preserved unchanged and exactly
one double-slash feature warning is recorded. -/
theorem c3_line_comment :
    SCC_result "a//b\nc".toList (cfgStd 6) = "a\nc".toList ∧
    SCC_result "a//b\nc".toList (cfgComments 6) = "//b".toList ∧
    SCC_warnings "a//b\nc".toList (cfgStd 6) = [] ∧
    SCC_result "a//b\nc".toList (cfgStd 1) = "a//b\nc".toList ∧
    SCC_warnings "a//b\nc".toList (cfgStd 1)
      = [(1, "Double slash comment feature used but not supported in C89")] := by decide

/-- C4 counterexample: under C++11 the input 0x1'2'3 contains digit
separators, and the run emits two numeric-punctuation feature warnings,
not exactly one: the code warns on every separator, with no
warn-once latch for this feature. -/
theorem c4_counterexample :
    SCC_warnings "0x1'2'3".toList (cfgStd 10)
      = [(1, "Numeric punctuation feature used but not supported in C++11"),
         (1, "Numeric punctuation feature used but not supported in C++11")] ∧
    (SCC_warnings "0x1'2'3".toList (cfgStd 10)).length ≠ 1 := by decide

/-- C4 (amended): under a standard lacking digit separators, every digit
separator processed in a numeric literal emits one numeric-punctuation
feature warning (one per separator, not one per run), and the literal is
emitted unchanged.  The universal part states this for check_punct, the
single place that handles separators: whenever the feature is off and
both neighbours are valid digits, exactly the one feature warning is
appended.  The concrete parts check the spec's example literal under
C++14 and C++11 and the two-separator literal under C++11. -/
theorem c4_numpunct_per_separator :
    (∀ (st : St) (oc : Char) (dc : Char → Bool),
       st.feat.f_NumPunct = false →
       st.input[st.pos]? = some SQ →
       dc oc = true →
       opt_is st.input[st.pos + 1]? dc = true →
       (check_punct oc dc st).2.warnings
         = st.warnings ++ [(st.nline, "Numeric punctuation feature used but not supported in "
             ++ standardToString st.cfg.stdCode)] ∧
       (check_punct oc dc st).2.result
         = (if st.cfg.printCommentsNotCode = false then st.result ++ [SQ] else st.result)) ∧
    SCC_result "0x1234'5678".toList (cfgStd 11) = "0x1234'5678".toList ∧
    SCC_warnings "0x1234'5678".toList (cfgStd 11) = [] ∧
    SCC_result "0x1234'5678".toList (cfgStd 10) = "0x1234'5678".toList ∧
    SCC_warnings "0x1234'5678".toList (cfgStd 10)
      = [(1, "Numeric punctuation feature used but not supported in C++11")] ∧
    SCC_result "0x1'2'3".toList (cfgStd 10) = "0x1'2'3".toList ∧
    SCC_warnings "0x1'2'3".toList (cfgStd 10)
      = [(1, "Numeric punctuation feature used but not supported in C++11"),
         (1, "Numeric punctuation feature used but not supported in C++11")] := by
  refine ⟨?_, by decide, by decide, by decide, by decide, by decide, by decide⟩
  intro st oc dc hfeat hsq hoc hpc
  have hnl : SQ ≠ NL := by decide
  unfold check_punct
  rw [getch_some hsq]
  simp only [s_putch_eq, hfeat, if_neg (by decide : ¬SQ = NL)]
  unfold warn_feature warning featureToNameString
  simp only [hoc, if_true, peek_eq]
  cases hp : st.input[st.pos + 1]? with
  | none => rw [hp] at hpc; simp [opt_is] at hpc
  | some pc =>
    rw [hp] at hpc
    simp only [opt_is] at hpc
    simp [hpc, if_neg (by decide : ¬SQ = NL)]

/-- Witness for c4_numpunct_per_separator: the universal part applied to
a concrete state whose cursor sits on a digit separator between the
digits 1 and 2 under C++11. -/
theorem c4_numpunct_witness :
    (mkSt [SQ, '2'] (cfgStd 10) {}).feat.f_NumPunct = false ∧
    (mkSt [SQ, '2'] (cfgStd 10) {}).input[(mkSt [SQ, '2'] (cfgStd 10) {}).pos]? = some SQ ∧
    ((check_punct '1' isdigitC (mkSt [SQ, '2'] (cfgStd 10) {})).2.warnings
       = (mkSt [SQ, '2'] (cfgStd 10) {}).warnings
         ++ [((mkSt [SQ, '2'] (cfgStd 10) {}).nline,
              "Numeric punctuation feature used but not supported in "
                ++ standardToString (mkSt [SQ, '2'] (cfgStd 10) {}).cfg.stdCode)] ∧
     (check_punct '1' isdigitC (mkSt [SQ, '2'] (cfgStd 10) {})).2.result
       = (if (mkSt [SQ, '2'] (cfgStd 10) {}).cfg.printCommentsNotCode = false
          then (mkSt [SQ, '2'] (cfgStd 10) {}).result ++ [SQ]
          else (mkSt [SQ, '2'] (cfgStd 10) {}).result)) :=
  ⟨by decide, by decide,
   c4_numpunct_per_separator.1 _ '1' isdigitC (by decide) (by decide) (by decide) (by decide)⟩

/-- C7: an unrecognized standard value makes set_features throw, the
constructor catches, the success flag is false and the produced text is
empty; for every recognized standard the success flag is true no matter
what the input text is, because nothing in the scan itself can throw. -/
theorem c7_invalid_standard (input : List Char) (cfg : Config) :
    (∀ e, set_features cfg.stdCode = Except.error e →
       SCC_ok input cfg = false ∧ SCC_result input cfg = []) ∧
    (∀ feat, set_features cfg.stdCode = Except.ok feat → SCC_ok input cfg = true) := by
  constructor
  · intro e he
    unfold SCC_ok SCC_result scc_full
    rw [he]
    exact ⟨rfl, rfl⟩
  · intro feat hf
    unfold SCC_ok scc_full
    rw [hf]
    rfl

/-- Witness for c7_invalid_standard: code 99 is unrecognized (run fails,
text empty); code 6 (C18) is recognized (run succeeds). -/
theorem c7_invalid_standard_witness :
    set_features (cfgStd 99).stdCode = Except.error "Invalid standard code" ∧
    set_features (cfgStd 6).stdCode
      = Except.ok { f_Unicode := true, f_HexFloat := true, f_Universal := true,
                    f_DoubleSlash := true } ∧
    (SCC_ok ['a'] (cfgStd 99) = false ∧ SCC_result ['a'] (cfgStd 99) = []) ∧
    SCC_ok ['a'] (cfgStd 6) = true :=
  ⟨rfl, rfl,
   (c7_invalid_standard ['a'] (cfgStd 99)).1 "Invalid standard code" rfl,
   (c7_invalid_standard ['a'] (cfgStd 6)).2 _ rfl⟩

/-- C8: whenever the main loop ends while still inside a block or line
comment, the run appends exactly one unterminated-comment warning at end
of input, the output accumulated so far is still produced unchanged, and
the success flag is still true. -/
theorem scc_full_eq (input : List Char) (cfg : Config) (feat : Features)
    (hf : set_features cfg.stdCode = Except.ok feat) :
    scc_full input cfg
      = some (match scc_loop (input.length + 1) NUL Comment.NonComment
                      (scc_start input cfg feat) with
              | (status, st) =>
                if status ≠ Comment.NonComment then
                  (status, warning "unterminated C-style comment" st.nline st)
                else (status, st)) := by
  unfold scc_full
  rw [hf]
  rfl

theorem c8_unterminated_comment (input : List Char) (cfg : Config) (feat : Features)
    (hf : set_features cfg.stdCode = Except.ok feat)
    (hst : (scc_loop (input.length + 1) NUL Comment.NonComment (scc_start input cfg feat)).1
             ≠ Comment.NonComment) :
    SCC_ok input cfg = true ∧
    SCC_result input cfg
      = (scc_loop (input.length + 1) NUL Comment.NonComment (scc_start input cfg feat)).2.result ∧
    SCC_warnings input cfg
      = (scc_loop (input.length + 1) NUL Comment.NonComment (scc_start input cfg feat)).2.warnings
        ++ [((scc_loop (input.length + 1) NUL Comment.NonComment
                (scc_start input cfg feat)).2.nline,
             "unterminated C-style comment")] := by
  have he := scc_full_eq input cfg feat hf
  rcases hL : scc_loop (input.length + 1) NUL Comment.NonComment (scc_start input cfg feat)
    with ⟨status, stL⟩
  rw [hL] at he hst
  simp only [ne_eq] at hst
  simp only [hst, ne_eq, not_false_eq_true, if_true] at he
  unfold SCC_ok SCC_result SCC_warnings
  rw [he]
  simp [warning_eq]

/-- Witness for c8_unterminated_comment: the unterminated block comment
a/*b in comment-output mode; the accumulated comment text is produced,
one warning is recorded, success holds. -/
theorem c8_unterminated_comment_witness :
    set_features (cfgComments 6).stdCode
      = Except.ok { f_Unicode := true, f_HexFloat := true, f_Universal := true,
                    f_DoubleSlash := true } ∧
    (scc_loop ("a/*b".toList.length + 1) NUL Comment.NonComment
        (scc_start "a/*b".toList (cfgComments 6)
          { f_Unicode := true, f_HexFloat := true, f_Universal := true,
            f_DoubleSlash := true })).1 ≠ Comment.NonComment ∧
    (SCC_ok "a/*b".toList (cfgComments 6) = true ∧
     SCC_result "a/*b".toList (cfgComments 6)
       = (scc_loop ("a/*b".toList.length + 1) NUL Comment.NonComment
           (scc_start "a/*b".toList (cfgComments 6)
             { f_Unicode := true, f_HexFloat := true, f_Universal := true,
               f_DoubleSlash := true })).2.result ∧
     SCC_warnings "a/*b".toList (cfgComments 6)
       = (scc_loop ("a/*b".toList.length + 1) NUL Comment.NonComment
           (scc_start "a/*b".toList (cfgComments 6)
             { f_Unicode := true, f_HexFloat := true, f_Universal := true,
               f_DoubleSlash := true })).2.warnings
         ++ [((scc_loop ("a/*b".toList.length + 1) NUL Comment.NonComment
                (scc_start "a/*b".toList (cfgComments 6)
                  { f_Unicode := true, f_HexFloat := true, f_Universal := true,
                    f_DoubleSlash := true })).2.nline,
              "unterminated C-style comment")]) :=
  ⟨rfl, by decide, c8_unterminated_comment _ _ _ rfl (by decide)⟩

/-! Lemmas describing cursor consumption via list decompositions. -/

theorem drop_cons {l : List Char} {n : Nat} {c : Char} {t : List Char}
    (h : l.drop n = c :: t) : l[n]? = some c ∧ l.drop (n + 1) = t := by
  constructor
  · have h0 : (l.drop n)[0]? = some c := by rw [h]; simp
    rw [List.getElem?_drop] at h0
    simpa using h0
  · have ht : (l.drop n).tail = t := by rw [h]; rfl
    rw [List.tail_drop] at ht
    exact ht

theorem getch_of_drop {st : St} {c : Char} {t : List Char}
    (h : st.input.drop st.pos = c :: t) :
    getch st = (some c, { st with pos := st.pos + 1,
                                  nline := if c = NL then st.nline + 1 else st.nline }) :=
  getch_some (drop_cons h).1

theorem bsl_ne_nl : BSL ≠ NL := by decide

/-- endq_bs on a run of k further backslashes followed by a non-backslash
terminator: it returns a total count of k+1 and the terminator, having
consumed exactly the run and the terminator. -/
theorem endq_bs_replicate {k : Nat} {d : Char} {rest : List Char} :
    ∀ (fuel : Nat) (st : St),
    st.input.drop st.pos = List.replicate k BSL ++ d :: rest →
    d ≠ BSL → k + 1 ≤ fuel →
    endq_bs fuel st
      = (k + 1, some d,
         { st with pos := st.pos + (k + 1),
                   nline := if d = NL then st.nline + 1 else st.nline }) := by
  induction k with
  | zero =>
    intro fuel st hsplit hdb hfuel
    match fuel, hfuel with
    | fuel + 1, _ =>
      rw [endq_bs]
      simp only [List.replicate, List.nil_append] at hsplit
      rw [getch_of_drop hsplit]
      simp [hdb]
  | succ k ih =>
    intro fuel st hsplit hdb hfuel
    match fuel, hfuel with
    | fuel + 1, hfuel =>
      rw [List.replicate_succ, List.cons_append] at hsplit
      have hdrop : st.input.drop (st.pos + 1) = List.replicate k BSL ++ d :: rest :=
        (drop_cons hsplit).2
      have ihh := ih fuel { st with pos := st.pos + 1 } hdrop hdb (by omega)
      rw [endq_bs, getch_of_drop hsplit]
      simp only [if_neg bsl_ne_nl]
      simp only [show (BSL = BSL) = True by simp, if_true]
      rw [ihh]
      dsimp only
      rw [show st.pos + 1 + (k + 1) = st.pos + (k + 1 + 1) from by omega]

/-- With no substitution characters configured, put_quote_char is
s_putch. -/
theorem put_quote_char_default {q c : Char} {st : St}
    (hq : st.cfg.qchar = NUL) (hs : st.cfg.schar = NUL) :
    put_quote_char q c st = s_putch c st := by
  unfold put_quote_char
  simp [hq, hs]

/-- s_putch of a non-newline character under code output. -/
theorem s_putch_default {c : Char} {st : St}
    (hnc : st.cfg.printCommentsNotCode = false) (hc : c ≠ NL) :
    s_putch c st = { st with result := st.result ++ [c], sCount := st.sCount + 1 } := by
  rw [s_putch_eq, hnc]
  simp [hc]

/-- put_repeat with default configuration on a non-newline character. -/
theorem put_repeat_default {q c : Char} (n : Nat) :
    ∀ (st : St), st.cfg.printCommentsNotCode = false →
    st.cfg.qchar = NUL → st.cfg.schar = NUL → c ≠ NL →
    put_repeat q c n st
      = { st with result := st.result ++ List.replicate n c, sCount := st.sCount + n } := by
  induction n with
  | zero => intro st hnc hq hs hc; simp [put_repeat]
  | succ n ih =>
    intro st hnc hq hs hc
    rw [put_repeat, put_quote_char_default hq hs, s_putch_default hnc hc]
    rw [ih _ (by exact hnc) (by exact hq) (by exact hs) hc]
    dsimp only
    rw [List.append_assoc]
    rw [show [c] ++ List.replicate n c = List.replicate (n + 1) c from rfl]
    rw [show st.sCount + 1 + n = st.sCount + (n + 1) from by omega]

/-- put_pairs with default configuration: 2 n backslashes. -/
theorem put_pairs_default (q : Char) (n : Nat) :
    ∀ (st : St), st.cfg.printCommentsNotCode = false →
    st.cfg.qchar = NUL → st.cfg.schar = NUL →
    put_pairs q n st
      = { st with result := st.result ++ List.replicate (2 * n) BSL,
                  sCount := st.sCount + 2 * n } := by
  induction n with
  | zero => intro st hnc hq hs; simp [put_pairs]
  | succ n ih =>
    intro st hnc hq hs
    rw [put_pairs]
    rw [show put_quote_str q [BSL, BSL] st
          = put_quote_char q BSL (put_quote_char q BSL st) from rfl]
    rw [put_quote_char_default hq hs, s_putch_default hnc bsl_ne_nl]
    rw [put_quote_char_default (by exact hq) (by exact hs), s_putch_default (by exact hnc) bsl_ne_nl]
    rw [ih _ (by exact hnc) (by exact hq) (by exact hs)]
    dsimp only
    rw [List.append_assoc, List.append_assoc]
    rw [show [BSL] ++ ([BSL] ++ List.replicate (2 * n) BSL)
          = List.replicate (2 * (n + 1)) BSL by
        rw [show 2 * (n + 1) = (2 * n) + 1 + 1 by omega]
        rfl]
    rw [show st.sCount + 1 + 1 + 2 * n = st.sCount + 2 * (n + 1) from by omega]

/-- C6: inside a quoted literal, a run of N = N'+1 consecutive
backslashes followed by a non-newline character d is emitted as N/2
literal backslash pairs plus, when N is odd, one more escaped character
(the same N+1 characters in all cases, under the default output
configuration with no substitution characters); and the literal
terminates exactly when N is even and d is the quote: then endquote
returns immediately with the quote emitted, while for N even with d not
the quote, and for N odd even when d is the quote, scanning continues on
the rest of the literal.  (The quote q is a quote character, never a
backslash; an escaped u or U without the universal-character-name
feature additionally records one feature warning, which the odd case
accounts for.) -/
theorem c6_backslash_parity (st : St) (q d : Char) (msg : String) (N' fuel : Nat)
    (rest : List Char)
    (hnc : st.cfg.printCommentsNotCode = false)
    (hq : st.cfg.qchar = NUL) (hs : st.cfg.schar = NUL)
    (hsplit : st.input.drop st.pos = List.replicate (N' + 1) BSL ++ d :: rest)
    (hqb : q ≠ BSL) (hdb : d ≠ BSL) (hdn : d ≠ NL) (hfuel : N' + 1 ≤ fuel) :
    ((N' + 1) % 2 = 0 → d = q →
       endquote q msg (fuel + 1) st
         = { st with pos := st.pos + (N' + 1 + 1),
                     result := st.result ++ (List.replicate (N' + 1) BSL ++ [d]),
                     sCount := st.sCount + (N' + 1 + 1) }) ∧
    ((N' + 1) % 2 = 0 → d ≠ q →
       endquote q msg (fuel + 1) st
         = endquote q msg fuel
             { st with pos := st.pos + (N' + 1 + 1),
                       result := st.result ++ (List.replicate (N' + 1) BSL ++ [d]),
                       sCount := st.sCount + (N' + 1 + 1) }) ∧
    ((N' + 1) % 2 = 1 →
       endquote q msg (fuel + 1) st
         = endquote q msg fuel
             { st with pos := st.pos + (N' + 1 + 1),
                       result := st.result ++ (List.replicate (N' + 1) BSL ++ [d]),
                       sCount := st.sCount + (N' + 1 + 1),
                       warnings := st.warnings ++
                         (if (d = 'u' ∨ d = 'U') ∧ st.feat.f_Universal = false then
                            [(st.nline, featureToNameString F_UNIVERSAL
                                ++ " feature used but not supported in "
                                ++ standardToString st.cfg.stdCode)]
                          else []) }) := by
  have hsplit1 : st.input.drop st.pos = BSL :: (List.replicate N' BSL ++ d :: rest) := by
    rw [hsplit, List.replicate_succ, List.cons_append]
  have hdrop1 : st.input.drop (st.pos + 1) = List.replicate N' BSL ++ d :: rest :=
    (drop_cons hsplit1).2
  refine ⟨?_, ?_, ?_⟩
  · intro he hdq
    rw [endquote, getch_of_drop hsplit1]
    simp only [if_neg bsl_ne_nl]
    rw [if_neg (show ¬ BSL = q from fun hh => hqb hh.symm)]
    simp only [show (BSL = BSL) = True by simp, if_true]
    rw [endq_bs_replicate fuel _ hdrop1 hdb (by omega)]
    dsimp only
    simp only [if_neg hdn]
    rw [if_pos he]
    rw [if_pos hdq]
    have hpp := put_pairs_default q ((N' + 1) / 2)
      { st with pos := st.pos + 1 + (N' + 1) } hnc hq hs
    rw [hpp]
    dsimp only
    rw [s_putch_eq]
    dsimp only
    simp only [hnc, if_neg hdn]
    simp only [show (false = false) = True by simp, if_true]
    rw [show 2 * ((N' + 1) / 2) = N' + 1 from by omega]
    rw [show st.pos + 1 + (N' + 1) = st.pos + (N' + 1 + 1) from by omega]
    rw [show st.sCount + (N' + 1) + 1 = st.sCount + (N' + 1 + 1) from by omega]
    rw [List.append_assoc]
  · intro he hdq
    rw [endquote, getch_of_drop hsplit1]
    simp only [if_neg bsl_ne_nl]
    rw [if_neg (show ¬ BSL = q from fun hh => hqb hh.symm)]
    simp only [show (BSL = BSL) = True by simp, if_true]
    rw [endq_bs_replicate fuel _ hdrop1 hdb (by omega)]
    dsimp only
    simp only [if_neg hdn]
    rw [if_pos he]
    rw [if_neg hdq]
    have hpp := put_pairs_default q ((N' + 1) / 2)
      { st with pos := st.pos + 1 + (N' + 1) } hnc hq hs
    rw [hpp]
    dsimp only
    rw [s_putch_eq]
    dsimp only
    simp only [hnc, if_neg hdn]
    simp only [show (false = false) = True by simp, if_true]
    rw [show 2 * ((N' + 1) / 2) = N' + 1 from by omega]
    rw [show st.pos + 1 + (N' + 1) = st.pos + (N' + 1 + 1) from by omega]
    rw [show st.sCount + (N' + 1) + 1 = st.sCount + (N' + 1 + 1) from by omega]
    rw [List.append_assoc]
  · intro ho
    rw [endquote, getch_of_drop hsplit1]
    simp only [if_neg bsl_ne_nl]
    rw [if_neg (show ¬ BSL = q from fun hh => hqb hh.symm)]
    simp only [show (BSL = BSL) = True by simp, if_true]
    rw [endq_bs_replicate fuel _ hdrop1 hdb (by omega)]
    dsimp only
    simp only [if_neg hdn]
    rw [if_neg (show ¬ (N' + 1) % 2 = 0 from by omega)]
    have hpp := put_pairs_default q ((N' + 1) / 2)
      { st with pos := st.pos + 1 + (N' + 1) } hnc hq hs
    rw [hpp]
    dsimp only
    simp only [put_quote_char, s_putch_eq, hq, hs, hnc, ne_eq, eq_self_iff_true, not_true,
               and_false, if_false, if_true, warn_feature, warning_eq]
    simp only [if_neg hdn, if_neg bsl_ne_nl]
    rw [show 2 * ((N' + 1) / 2) = N' from by omega]
    rw [show st.pos + 1 + (N' + 1) = st.pos + (N' + 1 + 1) from by omega]
    rw [show st.sCount + N' + 1 + 1 = st.sCount + (N' + 1 + 1) from by omega]
    by_cases hw : (d = 'u' ∨ d = 'U') ∧ st.feat.f_Universal = false
    · simp only [if_pos hw]
      congr 1
      simp [St.mk.injEq, List.append_assoc, List.replicate_succ']
    · simp only [if_neg hw]
      congr 1
      simp [St.mk.injEq, List.append_assoc, List.replicate_succ']

/-- Witness for c6_backslash_parity: a two-backslash run followed by the
closing double quote inside a string literal (N = 2 even, d = q, so the
literal terminates), starting from a fresh state over that input. -/
theorem c6_backslash_parity_witness :
    (mkSt [BSL, BSL, DQ, 'z'] (cfgStd 6) {}).input.drop (mkSt [BSL, BSL, DQ, 'z'] (cfgStd 6) {}).pos
      = List.replicate (1 + 1) BSL ++ DQ :: ['z'] ∧
    (1 + 1) % 2 = 0 ∧
    endquote DQ "string literal" (2 + 1) (mkSt [BSL, BSL, DQ, 'z'] (cfgStd 6) {})
      = { mkSt [BSL, BSL, DQ, 'z'] (cfgStd 6) {} with
          pos := (mkSt [BSL, BSL, DQ, 'z'] (cfgStd 6) {}).pos + (1 + 1 + 1),
          result := (mkSt [BSL, BSL, DQ, 'z'] (cfgStd 6) {}).result
            ++ (List.replicate (1 + 1) BSL ++ [DQ]),
          sCount := (mkSt [BSL, BSL, DQ, 'z'] (cfgStd 6) {}).sCount + (1 + 1 + 1) } :=
  ⟨by decide, by decide,
   (c6_backslash_parity (mkSt [BSL, BSL, DQ, 'z'] (cfgStd 6) {}) DQ DQ "string literal" 1 2
      ['z'] (by decide) (by decide) (by decide) (by decide) (by decide) (by decide)
      (by decide) (by decide)).1 (by decide) rfl⟩

/-! Projection lemmas for the output primitives. -/

theorem s_putch_input (c : Char) (st : St) : (s_putch c st).input = st.input := by
  rw [s_putch_eq]

theorem s_putch_pos (c : Char) (st : St) : (s_putch c st).pos = st.pos := by
  rw [s_putch_eq]

theorem s_putch_cfg (c : Char) (st : St) : (s_putch c st).cfg = st.cfg := by
  rw [s_putch_eq]

theorem s_putch_feat (c : Char) (st : St) : (s_putch c st).feat = st.feat := by
  rw [s_putch_eq]

theorem s_putch_nline (c : Char) (st : St) : (s_putch c st).nline = st.nline := by
  rw [s_putch_eq]

theorem s_putch_warnings (c : Char) (st : St) : (s_putch c st).warnings = st.warnings := by
  rw [s_putch_eq]

theorem s_putch_sCount (c : Char) (st : St) : (s_putch c st).sCount = st.sCount + 1 := by
  rw [s_putch_eq]

theorem s_putch_cCount (c : Char) (st : St) : (s_putch c st).cCount = st.cCount := by
  rw [s_putch_eq]

theorem s_putch_result (c : Char) (st : St) :
    (s_putch c st).result
      = (if st.cfg.printCommentsNotCode = false then st.result ++ [c] else st.result) := by
  rw [s_putch_eq]

/-- All the cursor-independent facts about s_putstr at once. -/
theorem s_putstr_spec (str : List Char) : ∀ st : St,
    (s_putstr str st).input = st.input ∧
    (s_putstr str st).pos = st.pos ∧
    (s_putstr str st).cfg = st.cfg ∧
    (s_putstr str st).feat = st.feat ∧
    (s_putstr str st).nline = st.nline ∧
    (s_putstr str st).warnings = st.warnings ∧
    (s_putstr str st).sCount = st.sCount + str.length ∧
    (s_putstr str st).cCount = st.cCount ∧
    (s_putstr str st).result
      = (if st.cfg.printCommentsNotCode = false then st.result ++ str else st.result) := by
  induction str with
  | nil => intro st; simp [s_putstr]
  | cons c str ih =>
    intro st
    rw [s_putstr]
    obtain ⟨h1, h2, h3, h4, h5, h6, h7, h8, h9⟩ := ih (s_putch c st)
    simp only [h1, h2, h3, h4, h5, h6, h7, h8, h9, s_putch_input, s_putch_pos, s_putch_cfg,
               s_putch_feat, s_putch_nline, s_putch_warnings, s_putch_sCount, s_putch_cCount,
               s_putch_result]
    refine ⟨trivial, trivial, trivial, trivial, trivial, trivial,
      by simp only [List.length_cons]; omega, trivial, ?_⟩
    by_cases hc : st.cfg.printCommentsNotCode = false <;> simp [hc]

theorem s_putstr_input (str : List Char) (st : St) : (s_putstr str st).input = st.input :=
  (s_putstr_spec str st).1

theorem s_putstr_pos (str : List Char) (st : St) : (s_putstr str st).pos = st.pos :=
  (s_putstr_spec str st).2.1

theorem s_putstr_cfg (str : List Char) (st : St) : (s_putstr str st).cfg = st.cfg :=
  (s_putstr_spec str st).2.2.1

theorem s_putstr_feat (str : List Char) (st : St) : (s_putstr str st).feat = st.feat :=
  (s_putstr_spec str st).2.2.2.1

theorem s_putstr_nline (str : List Char) (st : St) : (s_putstr str st).nline = st.nline :=
  (s_putstr_spec str st).2.2.2.2.1

theorem s_putstr_warnings (str : List Char) (st : St) :
    (s_putstr str st).warnings = st.warnings :=
  (s_putstr_spec str st).2.2.2.2.2.1

theorem s_putstr_sCount (str : List Char) (st : St) :
    (s_putstr str st).sCount = st.sCount + str.length :=
  (s_putstr_spec str st).2.2.2.2.2.2.1

theorem s_putstr_cCount (str : List Char) (st : St) :
    (s_putstr str st).cCount = st.cCount :=
  (s_putstr_spec str st).2.2.2.2.2.2.2.1

theorem s_putstr_result (str : List Char) (st : St) :
    (s_putstr str st).result
      = (if st.cfg.printCommentsNotCode = false then st.result ++ str else st.result) :=
  (s_putstr_spec str st).2.2.2.2.2.2.2.2

/-! Facts about the raw-string closing sequence. -/

theorem closeAt_zero (mark t : List Char) : closeAt mark (closeOf mark ++ t) 0 = true := by
  unfold closeAt
  rw [List.drop_zero, List.take_left]
  simp

theorem closeAt_shift (mark u v : List Char) (i : Nat) :
    closeAt mark (u ++ v) (u.length + i) = closeAt mark v i := by
  unfold closeAt
  rw [List.drop_append]


theorem raw_inner_close (mark : List Char) (line1 : Int) :
    ∀ (fuel len : Nat) (st : St) (rest : List Char),
    st.cfg.printCommentsNotCode = false →
    len ≤ mark.length →
    st.input.drop st.pos = mark.drop len ++ DQ :: rest →
    (mark.drop len).length + 1 ≤ fuel →
    (raw_inner mark line1 len fuel st).result = st.result ++ closeOf mark ∧
    (raw_inner mark line1 len fuel st).warnings = st.warnings ∧
    (raw_inner mark line1 len fuel st).input = st.input ∧
    (raw_inner mark line1 len fuel st).cfg = st.cfg ∧
    (raw_inner mark line1 len fuel st).input.drop (raw_inner mark line1 len fuel st).pos
      = rest := by
  intro fuel
  induction fuel with
  | zero =>
    intro len st rest hnc hlen hsplit hfuel
    omega
  | succ fuel ih =>
    intro len st rest hnc hlen hsplit hfuel
    by_cases he : len = mark.length
    · subst he
      rw [List.drop_length, List.nil_append] at hsplit
      rw [raw_inner, getch_of_drop hsplit]
      dsimp only
      rw [if_pos (show DQ = DQ ∧ mark.length = mark.length from ⟨rfl, rfl⟩)]
      have hrest : st.input.drop (st.pos + 1) = rest := (drop_cons hsplit).2
      simp only [s_putch_input, s_putch_pos, s_putch_cfg, s_putch_warnings, s_putch_result,
                 s_putstr_input, s_putstr_pos, s_putstr_cfg, s_putstr_warnings, s_putstr_result,
                 hnc, if_true]
      refine ⟨?_, trivial, trivial, trivial, ?_⟩
      · simp [closeOf, List.append_assoc]
      · exact hrest
    · have hlt : len < mark.length := by omega
      have hne : mark.drop len ≠ [] := by
        intro hnil
        have := congrArg List.length hnil
        simp [List.length_drop] at this
        omega
      obtain ⟨a, t2, hd⟩ : ∃ a t2, mark.drop len = a :: t2 := by
        cases hdd : mark.drop len with
        | nil => exact absurd hdd hne
        | cons a t2 => exact ⟨a, t2, rfl⟩
      obtain ⟨ha, hd2⟩ := drop_cons hd
      rw [hd, List.cons_append] at hsplit
      rw [raw_inner, getch_of_drop hsplit]
      dsimp only
      rw [if_neg (show ¬(a = DQ ∧ len = mark.length) from fun hh => he hh.2)]
      rw [if_pos ha]
      have hrest : st.input.drop (st.pos + 1) = mark.drop (len + 1) ++ DQ :: rest := by
        rw [(drop_cons hsplit).2, hd2]
      have hfl : (mark.drop (len + 1)).length + 1 ≤ fuel := by
        simp only [List.length_drop] at hfuel ⊢
        omega
      obtain ⟨r1, r2, r3, r4, r5⟩ := ih (len + 1)
        { st with pos := st.pos + 1,
                  nline := if a = NL then st.nline + 1 else st.nline }
        rest hnc hlt hrest hfl
      exact ⟨r1, r2, r3, r4, r5⟩


theorem closeOf_length (mark : List Char) : (closeOf mark).length = mark.length + 2 := by
  simp [closeOf]

theorem s_putch_result_code {c : Char} {st : St} (hnc : st.cfg.printCommentsNotCode = false) :
    (s_putch c st).result = st.result ++ [c] := by
  rw [s_putch_result, hnc]
  simp

theorem s_putstr_result_code {str : List Char} {st : St}
    (hnc : st.cfg.printCommentsNotCode = false) :
    (s_putstr str st).result = st.result ++ str := by
  rw [s_putstr_result, hnc]
  simp

theorem flush_result (len : Nat) (mark : List Char) (st1 : St)
    (hnc : st1.cfg.printCommentsNotCode = false) :
    (s_putstr (mark.take len) (s_putch ')' st1)).result
      = st1.result ++ [')'] ++ mark.take len := by
  have hc1 : (s_putch ')' st1).cfg.printCommentsNotCode = false := by
    rw [s_putch_cfg]
    exact hnc
  rw [s_putstr_result_code hc1, s_putch_result_code hnc]

theorem flush_putch_result (a : Char) (len : Nat) (mark : List Char) (st1 : St)
    (hnc : st1.cfg.printCommentsNotCode = false) :
    (s_putch a (s_putstr (mark.take len) (s_putch ')' st1))).result
      = st1.result ++ [')'] ++ mark.take len ++ [a] := by
  have hc2 : (s_putstr (mark.take len) (s_putch ')' st1)).cfg.printCommentsNotCode = false := by
    rw [s_putstr_cfg, s_putch_cfg]
    exact hnc
  rw [s_putch_result_code hc2, flush_result len mark st1 hnc]

theorem raw_scan_joint : ∀ fuel : Nat,
    (∀ (mark : List Char) (line1 : Int) (st : St) (body rest : List Char),
       st.cfg.printCommentsNotCode = false →
       (')' ∈ mark → False) →
       st.input.drop st.pos = body ++ closeOf mark ++ rest →
       (∀ i, i < body.length → closeAt mark (body ++ closeOf mark ++ rest) i = false) →
       body.length + (closeOf mark).length ≤ fuel →
       (raw_outer mark line1 fuel st).result = st.result ++ (body ++ closeOf mark) ∧
       (raw_outer mark line1 fuel st).warnings = st.warnings ∧
       (raw_outer mark line1 fuel st).input = st.input ∧
       (raw_outer mark line1 fuel st).cfg = st.cfg ∧
       (raw_outer mark line1 fuel st).input.drop (raw_outer mark line1 fuel st).pos = rest) ∧
    (∀ (mark : List Char) (line1 : Int) (len : Nat) (st : St) (w rest : List Char),
       st.cfg.printCommentsNotCode = false →
       (')' ∈ mark → False) →
       len ≤ mark.length →
       (')' :: mark.take len) ++ st.input.drop st.pos = w ++ closeOf mark ++ rest →
       (∀ i, i < w.length → closeAt mark (w ++ closeOf mark ++ rest) i = false) →
       w.length + (closeOf mark).length ≤ fuel + (1 + len) →
       (raw_inner mark line1 len fuel st).result = st.result ++ (w ++ closeOf mark) ∧
       (raw_inner mark line1 len fuel st).warnings = st.warnings ∧
       (raw_inner mark line1 len fuel st).input = st.input ∧
       (raw_inner mark line1 len fuel st).cfg = st.cfg ∧
       (raw_inner mark line1 len fuel st).input.drop (raw_inner mark line1 len fuel st).pos
         = rest) := by
  intro fuel
  induction fuel with
  | zero =>
    constructor
    · intro mark line1 st body rest hnc hm1 hsplit hfirst hfuel
      rw [closeOf_length] at hfuel
      omega
    · intro mark line1 len st w rest hnc hm1 hlen hsplit hfirst hfuel
      rw [closeOf_length] at hfuel
      omega
  | succ fuel ih =>
    constructor
    · intro mark line1 st body rest hnc hm1 hsplit hfirst hfuel
      cases body with
      | nil =>
        have hsplit1 : st.input.drop st.pos = ')' :: ((mark ++ [DQ]) ++ rest) := by
          rw [hsplit]
          simp [closeOf]
        rw [raw_outer, getch_of_drop hsplit1]
        dsimp only
        rw [if_neg (show ¬(')' : Char) ≠ ')' from by simp)]
        have hdrop1 : st.input.drop (st.pos + 1) = (mark ++ [DQ]) ++ rest :=
          (drop_cons hsplit1).2
        obtain ⟨r1, r2, r3, r4, r5⟩ := ih.2 mark line1 0
          { st with pos := st.pos + 1,
                    nline := if (')' : Char) = NL then st.nline + 1 else st.nline } [] rest hnc
          hm1 (by omega)
          (by show (')' :: mark.take 0) ++ st.input.drop (st.pos + 1)
                = [] ++ closeOf mark ++ rest
              rw [hdrop1]
              simp [closeOf])
          (by intro i hi
              simp at hi)
          (by rw [closeOf_length] at hfuel ⊢
              omega)
        refine ⟨?_, ?_, ?_, ?_, ?_⟩
        · rw [r1]
        · rw [r2]
        · rw [r3]
        · rw [r4]
        · exact r5
      | cons b body2 =>
        rw [List.cons_append, List.cons_append] at hsplit
        rw [raw_outer, getch_of_drop hsplit]
        dsimp only
        have hdrop1 : st.input.drop (st.pos + 1) = body2 ++ closeOf mark ++ rest :=
          (drop_cons hsplit).2
        by_cases hb : b = ')'
        · rw [if_neg (show ¬ b ≠ ')' from by simp [hb])]
          obtain ⟨r1, r2, r3, r4, r5⟩ := ih.2 mark line1 0
            { st with pos := st.pos + 1,
                      nline := if b = NL then st.nline + 1 else st.nline } (b :: body2) rest hnc
            hm1 (by omega)
            (by show (')' :: mark.take 0) ++ st.input.drop (st.pos + 1)
                  = (b :: body2) ++ closeOf mark ++ rest
                rw [hdrop1, hb]
                simp)
            (by intro i hi
                exact hfirst i hi)
            (by rw [closeOf_length] at hfuel ⊢
                simp only [List.length_cons] at hfuel ⊢
                omega)
          refine ⟨?_, ?_, ?_, ?_, ?_⟩
          · rw [r1]
          · rw [r2]
          · rw [r3]
          · rw [r4]
          · exact r5
        · rw [if_pos (show b ≠ ')' from hb)]
          obtain ⟨r1, r2, r3, r4, r5⟩ := ih.1 mark line1
            (s_putch b { st with pos := st.pos + 1,
                                 nline := if b = NL then st.nline + 1 else st.nline }) body2 rest
            (by rw [s_putch_cfg]; exact hnc)
            hm1
            (by rw [s_putch_input, s_putch_pos]
                exact hdrop1)
            (by intro i hi
                have hsh := hfirst (i + 1) (by simp only [List.length_cons]; omega)
                have hre : (b :: body2) ++ closeOf mark ++ rest
                    = [b] ++ (body2 ++ closeOf mark ++ rest) := by simp
                have hidx : i + 1 = [b].length + i := by
                  simp only [List.length_cons, List.length_nil]
                  omega
                rw [hre, hidx, closeAt_shift] at hsh
                exact hsh)
            (by simp only [List.length_cons] at hfuel
                omega)
          refine ⟨?_, ?_, ?_, ?_, ?_⟩
          · have hres1 : (s_putch b
                  { st with pos := st.pos + 1,
                            nline := (if b = NL then st.nline + 1 else st.nline) }).result
                = ({ st with pos := st.pos + 1,
                              nline := (if b = NL then st.nline + 1 else st.nline) } : St).result
                  ++ [b] :=
              s_putch_result_code hnc
            rw [r1, hres1]
            simp
          · rw [r2, s_putch_warnings]
          · rw [r3, s_putch_input]
          · rw [r4, s_putch_cfg]
          · exact r5
    · intro mark line1 len st w rest hnc hm1 hlen hsplit hfirst hfuel
      have hplen : ((')' :: mark.take len) : List Char).length = 1 + len := by
        simp only [List.length_cons, List.length_take]
        omega
      by_cases hw : w = []
      · subst hw
        rw [List.nil_append] at hsplit
        have h1 : mark.take len ++ st.input.drop st.pos = (mark ++ [DQ]) ++ rest := by
          have h0 := hsplit
          simp only [closeOf, List.cons_append] at h0
          have h0t := congrArg List.tail h0
          simpa using h0t
        have h2 : st.input.drop st.pos = mark.drop len ++ (DQ :: rest) := by
          have h3 : mark.take len ++ st.input.drop st.pos
              = mark.take len ++ (mark.drop len ++ (DQ :: rest)) := by
            rw [h1, ← List.append_assoc, List.take_append_drop]
            simp
          exact List.append_cancel_left h3
        obtain ⟨r1, r2, r3, r4, r5⟩ := raw_inner_close mark line1 (fuel + 1) len st rest hnc
          hlen h2
          (by rw [closeOf_length] at hfuel
              simp only [List.length_drop]
              omega)
        refine ⟨?_, r2, r3, r4, r5⟩
        rw [r1]
        simp
      · have hwpos : 0 < w.length := List.length_pos.mpr hw
        have hlew : 1 + len ≤ w.length := by
          by_contra hcon
          have hg1 : (w ++ closeOf mark ++ rest)[w.length]? = some ')' := by
            rw [List.getElem?_append_left (show w.length < (w ++ closeOf mark).length from by
                  rw [List.length_append, closeOf_length]
                  omega)]
            rw [List.getElem?_append_right (le_refl w.length)]
            simp [closeOf]
          have hg2 : ((')' :: mark.take len) ++ st.input.drop st.pos)[w.length]? = some ')' := by
            rw [hsplit]
            exact hg1
          rw [List.getElem?_append_left (by rw [hplen]; omega)] at hg2
          obtain ⟨m, hm⟩ : ∃ m, w.length = m + 1 := ⟨w.length - 1, by omega⟩
          rw [hm, List.getElem?_cons_succ] at hg2
          exact hm1 (List.mem_of_mem_take (List.getElem?_mem hg2))
        have htk : ((')' :: mark.take len) : List Char) = w.take (1 + len) := by
          have h4 := congrArg (List.take (1 + len)) hsplit
          rw [← hplen, List.take_left, hplen,
              List.take_append_of_le_length (show 1 + len ≤ (w ++ closeOf mark).length from by
                rw [List.length_append]
                omega),
              List.take_append_of_le_length hlew] at h4
          exact h4
        have hdr : st.input.drop st.pos = w.drop (1 + len) ++ (closeOf mark ++ rest) := by
          have h5 := congrArg (List.drop (1 + len)) hsplit
          rw [← hplen, List.drop_left, hplen,
              List.drop_append_of_le_length (show 1 + len ≤ (w ++ closeOf mark).length from by
                rw [List.length_append]
                omega),
              List.drop_append_of_le_length hlew] at h5
          rw [h5]
          simp
        have hw2 : w = (')' :: mark.take len) ++ w.drop (1 + len) := by
          conv_lhs => rw [← List.take_append_drop (1 + len) w]
          rw [htk]
        cases hcw : w.drop (1 + len) with
        | nil =>
          have hwlen : w.length = 1 + len := by
            rw [hw2, hcw]
            simp only [List.append_nil, List.length_cons, List.length_take]
            omega
          rw [hcw, List.nil_append] at hdr
          have hsp3 : st.input.drop st.pos = ')' :: ((mark ++ [DQ]) ++ rest) := by
            rw [hdr]
            simp [closeOf]
          rw [raw_inner, getch_of_drop hsp3]
          dsimp only
          rw [if_neg (show ¬((')' : Char) = DQ ∧ len = mark.length) from
                fun hh => absurd hh.1 (by decide))]
          rw [if_neg (show ¬ mark[len]? = some ')' from
                fun hh => hm1 (List.getElem?_mem hh))]
          rw [if_pos (rfl : (')' : Char) = ')')]
          have hdrop1 : st.input.drop (st.pos + 1) = (mark ++ [DQ]) ++ rest :=
            (drop_cons hsp3).2
          obtain ⟨r1, r2, r3, r4, r5⟩ := ih.2 mark line1 0
            (s_putstr (mark.take len) (s_putch ')'
              { st with pos := st.pos + 1,
                        nline := if (')' : Char) = NL then st.nline + 1 else st.nline })) [] rest
            (by rw [s_putstr_cfg, s_putch_cfg]; exact hnc)
            hm1 (by omega)
            (by rw [s_putstr_input, s_putstr_pos, s_putch_input, s_putch_pos]
                show (')' :: mark.take 0) ++ st.input.drop (st.pos + 1)
                  = [] ++ closeOf mark ++ rest
                rw [hdrop1]
                simp [closeOf])
            (by intro i hi
                simp at hi)
            (by rw [closeOf_length] at hfuel ⊢
                rw [hwlen] at hfuel
                simp only [List.length_nil]
                omega)
          have hres2 := flush_result len mark
            { st with pos := st.pos + 1,
                      nline := if (')' : Char) = NL then st.nline + 1 else st.nline } hnc
          refine ⟨?_, ?_, ?_, ?_, ?_⟩
          · rw [r1, hres2, hw2, hcw]
            simp
          · rw [r2, s_putstr_warnings, s_putch_warnings]
          · rw [r3, s_putstr_input, s_putch_input]
          · rw [r4, s_putstr_cfg, s_putch_cfg]
          · exact r5
        | cons a w2p =>
          have hwlen : w.length = 1 + len + (1 + w2p.length) := by
            rw [hw2, hcw]
            simp only [List.length_append, List.length_cons, List.length_take]
            omega
          have hsp2c : st.input.drop st.pos = a :: (w2p ++ closeOf mark ++ rest) := by
            rw [hdr, hcw]
            simp
          rw [raw_inner, getch_of_drop hsp2c]
          dsimp only
          have hdrop1 : st.input.drop (st.pos + 1) = w2p ++ closeOf mark ++ rest :=
            (drop_cons hsp2c).2
          have hb1 : ¬(a = DQ ∧ len = mark.length) := by
            rintro ⟨ha1, ha2⟩
            have hx := hfirst 0 hwpos
            have hre : w ++ closeOf mark ++ rest
                = closeOf mark ++ (w2p ++ closeOf mark ++ rest) := by
              rw [hw2, hcw, ha1, ha2, List.take_length]
              simp [closeOf]
            rw [hre] at hx
            have hz := closeAt_zero mark (w2p ++ closeOf mark ++ rest)
            rw [hx] at hz
            exact Bool.noConfusion hz
          rw [if_neg hb1]
          by_cases hma : mark[len]? = some a
          · rw [if_pos hma]
            obtain ⟨hlt, _⟩ := List.getElem?_eq_some.mp hma
            obtain ⟨r1, r2, r3, r4, r5⟩ := ih.2 mark line1 (len + 1)
              { st with pos := st.pos + 1,
                        nline := if a = NL then st.nline + 1 else st.nline } w rest hnc
              hm1 (by omega)
              (by show (')' :: mark.take (len + 1)) ++ st.input.drop (st.pos + 1)
                    = w ++ closeOf mark ++ rest
                  rw [hdrop1, take_snoc hma, hw2, hcw]
                  simp)
              hfirst
              (by omega)
            exact ⟨r1, r2, r3, r4, r5⟩
          · rw [if_neg hma]
            by_cases har : a = ')'
            · rw [if_pos har]
              obtain ⟨r1, r2, r3, r4, r5⟩ := ih.2 mark line1 0
                (s_putstr (mark.take len) (s_putch ')'
                  { st with pos := st.pos + 1,
                            nline := if a = NL then st.nline + 1 else st.nline }))
                (a :: w2p) rest
                (by rw [s_putstr_cfg, s_putch_cfg]; exact hnc)
                hm1 (by omega)
                (by rw [s_putstr_input, s_putstr_pos, s_putch_input, s_putch_pos]
                    show (')' :: mark.take 0) ++ st.input.drop (st.pos + 1)
                      = (a :: w2p) ++ closeOf mark ++ rest
                    rw [hdrop1, har]
                    simp)
                (by intro i hi
                    have hre2 : w ++ closeOf mark ++ rest
                        = ((')' :: mark.take len) : List Char)
                          ++ ((a :: w2p) ++ closeOf mark ++ rest) := by
                      rw [hw2, hcw]
                      simp
                    have hib : ((')' :: mark.take len) : List Char).length + i < w.length := by
                      rw [hplen, hwlen]
                      simp only [List.length_cons] at hi
                      omega
                    have hx := hfirst (((')' :: mark.take len) : List Char).length + i) hib
                    rw [hre2, closeAt_shift] at hx
                    exact hx)
                (by rw [closeOf_length] at hfuel ⊢
                    rw [hwlen] at hfuel
                    simp only [List.length_cons]
                    omega)
              have hres2 := flush_result len mark
                { st with pos := st.pos + 1,
                          nline := if a = NL then st.nline + 1 else st.nline } hnc
              refine ⟨?_, ?_, ?_, ?_, ?_⟩
              · rw [r1, hres2, hw2, hcw]
                simp
              · rw [r2, s_putstr_warnings, s_putch_warnings]
              · rw [r3, s_putstr_input, s_putch_input]
              · rw [r4, s_putstr_cfg, s_putch_cfg]
              · exact r5
            · rw [if_neg har]
              obtain ⟨r1, r2, r3, r4, r5⟩ := ih.1 mark line1
                (s_putch a (s_putstr (mark.take len) (s_putch ')'
                  { st with pos := st.pos + 1,
                            nline := if a = NL then st.nline + 1 else st.nline })))
                w2p rest
                (by rw [s_putch_cfg, s_putstr_cfg, s_putch_cfg]; exact hnc)
                hm1
                (by rw [s_putch_input, s_putch_pos, s_putstr_input, s_putstr_pos,
                        s_putch_input, s_putch_pos]
                    exact hdrop1)
                (by intro i hi
                    have hre3 : w ++ closeOf mark ++ rest
                        = ((')' :: (mark.take len ++ [a])) : List Char)
                          ++ (w2p ++ closeOf mark ++ rest) := by
                      rw [hw2, hcw]
                      simp
                    have hib : ((')' :: (mark.take len ++ [a])) : List Char).length + i
                        < w.length := by
                      simp only [List.length_cons, List.length_append, List.length_take,
                                 List.length_nil]
                      rw [hwlen]
                      omega
                    have hx := hfirst
                      (((')' :: (mark.take len ++ [a])) : List Char).length + i) hib
                    rw [hre3, closeAt_shift] at hx
                    exact hx)
                (by rw [closeOf_length] at hfuel ⊢
                    rw [hwlen] at hfuel
                    omega)
              have hres3 := flush_putch_result a len mark
                { st with pos := st.pos + 1,
                          nline := if a = NL then st.nline + 1 else st.nline } hnc
              refine ⟨?_, ?_, ?_, ?_, ?_⟩
              · rw [r1, hres3, hw2, hcw]
                simp
              · rw [r2, s_putch_warnings, s_putstr_warnings, s_putch_warnings]
              · rw [r3, s_putch_input, s_putstr_input, s_putch_input]
              · rw [r4, s_putch_cfg, s_putstr_cfg, s_putch_cfg]
              · exact r5

/-- C2: raw-string bodies pass through verbatim.  If the text after the
opening delimiter splits as body, then the exact closing sequence
close-paren marker quote, then rest, and the closing sequence does not
occur anywhere inside the body, then the raw-string scanning loop emits
body and the closing sequence to the code channel character for
character, records no diagnostics, and leaves the cursor right after the
closing quote; in particular a close-paren that begins but fails to
complete the closing sequence has all tentatively buffered characters
re-emitted, so no text is lost. -/
theorem c2_raw_string_verbatim (mark : List Char) (line1 : Int) (st : St)
    (body rest : List Char) (fuel : Nat)
    (hnc : st.cfg.printCommentsNotCode = false)
    (hm : ')' ∈ mark → False)
    (hsplit : st.input.drop st.pos = body ++ closeOf mark ++ rest)
    (hfirst : ∀ i, i < body.length → closeAt mark (body ++ closeOf mark ++ rest) i = false)
    (hfuel : body.length + (closeOf mark).length ≤ fuel) :
    (raw_outer mark line1 fuel st).result = st.result ++ (body ++ closeOf mark) ∧
    (raw_outer mark line1 fuel st).warnings = st.warnings ∧
    (raw_outer mark line1 fuel st).input.drop (raw_outer mark line1 fuel st).pos = rest := by
  obtain ⟨r1, r2, _, _, r5⟩ :=
    (raw_scan_joint fuel).1 mark line1 st body rest hnc hm hsplit hfirst hfuel
  exact ⟨r1, r2, r5⟩

theorem c2_raw_string_verbatim_witness :
    c2St.cfg.printCommentsNotCode = false ∧
    (')' ∈ (['a', 'b'] : List Char) → False) ∧
    c2St.input.drop c2St.pos = ['x', ')', 'a'] ++ closeOf ['a', 'b'] ++ ['w'] ∧
    (∀ i, i < (['x', ')', 'a'] : List Char).length →
      closeAt ['a', 'b'] (['x', ')', 'a'] ++ closeOf ['a', 'b'] ++ ['w']) i = false) ∧
    (['x', ')', 'a'] : List Char).length + (closeOf ['a', 'b']).length ≤ 8 ∧
    ((raw_outer ['a', 'b'] 1 8 c2St).result
        = c2St.result ++ (['x', ')', 'a'] ++ closeOf ['a', 'b']) ∧
      (raw_outer ['a', 'b'] 1 8 c2St).warnings = c2St.warnings ∧
      (raw_outer ['a', 'b'] 1 8 c2St).input.drop (raw_outer ['a', 'b'] 1 8 c2St).pos
        = ['w']) :=
  ⟨by decide, by decide, by decide, by decide, by decide,
   c2_raw_string_verbatim ['a', 'b'] 1 c2St ['x', ')', 'a'] ['w'] 8
     (by decide) (by decide) (by decide) (by decide) (by decide)⟩

/-! Routing-conservation infrastructure: the C5 lemma suite.  Each scanner
routine is shown to route exactly the characters it consumes (plus the
characters its caller consumed for it), provided the input ends in a
newline where an end-of-input could otherwise interrupt a tentatively
buffered construct. -/

theorem routed_refl {st : St} (hp : st.pos ≤ st.input.length) : Routed 0 st st :=
  ⟨rfl, le_refl _, hp, by omega⟩

theorem routed_trans {j k : Int} {st st2 st3 : St} (h1 : Routed j st st2)
    (h2 : Routed k st2 st3) : Routed (j + k) st st3 := by
  obtain ⟨a1, b1, c1, d1⟩ := h1
  obtain ⟨a2, b2, c2, d2⟩ := h2
  refine ⟨a2.trans a1, b1.trans b2, ?_, by omega⟩
  rw [a1] at c2
  exact c2

theorem routed_cast {j k : Int} {st st2 : St} (e : j = k) (h : Routed j st st2) :
    Routed k st st2 := by
  rw [← e]
  exact h

theorem routed_hp {k : Int} {st st2 : St} (h : Routed k st st2) :
    st2.pos ≤ st2.input.length := by
  obtain ⟨a, _, c, _⟩ := h
  rw [a]
  exact c

theorem routed_emit {k : Nat} {st st2 : St} (hi : st2.input = st.input)
    (hpos : st2.pos = st.pos) (ht : tot st2 = tot st + k)
    (hp : st.pos ≤ st.input.length) : Routed (k : Int) st st2 :=
  ⟨hi, by omega, by omega, by omega⟩

theorem routed_getch {st : St} {c : Char} (h : st.input[st.pos]? = some c) :
    Routed (-1) st (getch st).2 := by
  have hlt := (List.getElem?_eq_some.mp h).1
  rw [getch_some h]
  exact ⟨rfl, by dsimp only; omega, by dsimp only; omega, by unfold tot; dsimp only; omega⟩

theorem getch_prev {st : St} {c : Char} (h : st.input[st.pos]? = some c) :
    (getch st).2.input[(getch st).2.pos - 1]? = some c ∧ 1 ≤ (getch st).2.pos := by
  rw [getch_some h]
  dsimp only
  exact ⟨by simpa using h, by omega⟩

theorem getch_input (st : St) : (getch st).2.input = st.input := by
  unfold getch
  cases h : st.input[st.pos]? <;> rfl

theorem tot_getch (st : St) : tot (getch st).2 = tot st := by
  unfold getch
  cases h : st.input[st.pos]? <;> rfl

theorem getch_pos_some {st : St} {c : Char} (h : st.input[st.pos]? = some c) :
    (getch st).2.pos = st.pos + 1 := by
  rw [getch_some h]

theorem ungetch_getch2 {st : St} {c : Char} (h : st.input[st.pos]? = some c) :
    ungetch c (getch st).2 = st := by
  rw [getch_some h]
  exact ungetch_getch

/-- With the input ending in a newline, the cursor cannot be at the end
right after consuming a character other than a newline. -/
theorem pos_lt_of_prev_ne_nl {st : St} {pc : Char}
    (hNL : st.input.getLast? = some NL) (h1 : 1 ≤ st.pos)
    (hp : st.pos ≤ st.input.length) (hprev : st.input[st.pos - 1]? = some pc)
    (hne : pc ≠ NL) : st.pos < st.input.length := by
  by_contra hcon
  have he : st.pos = st.input.length := by omega
  rw [List.getLast?_eq_getElem?, ← he, hprev] at hNL
  exact hne (Option.some.injEq pc NL ▸ hNL)

theorem exists_getElem_of_lt {st : St} (h : st.pos < st.input.length) :
    ∃ c, st.input[st.pos]? = some c :=
  ⟨st.input[st.pos], List.getElem?_eq_getElem h⟩

theorem tot_s_putch (c : Char) (st : St) : tot (s_putch c st) = tot st + 1 := by
  unfold tot
  rw [s_putch_sCount, s_putch_cCount]
  omega

theorem c_putch_input (c : Char) (st : St) : (c_putch c st).input = st.input := by
  rw [c_putch_eq]

theorem c_putch_pos (c : Char) (st : St) : (c_putch c st).pos = st.pos := by
  rw [c_putch_eq]

theorem tot_c_putch (c : Char) (st : St) : tot (c_putch c st) = tot st + 1 := by
  rw [c_putch_eq]
  unfold tot
  dsimp only
  omega

theorem s_putch_repl_input (c : Char) (st : St) : (s_putch_repl c st).input = st.input := by
  rw [s_putch_repl_eq]

theorem s_putch_repl_pos (c : Char) (st : St) : (s_putch_repl c st).pos = st.pos := by
  rw [s_putch_repl_eq]

theorem tot_s_putch_repl (c : Char) (st : St) : tot (s_putch_repl c st) = tot st := by
  rw [s_putch_repl_eq]
  unfold tot
  dsimp only

theorem tot_warning (msg : String) (line : Int) (st : St) :
    tot (warning msg line st) = tot st := by
  rw [warning_eq]
  unfold tot
  dsimp only

theorem warning_input (msg : String) (line : Int) (st : St) :
    (warning msg line st).input = st.input := by
  rw [warning_eq]

theorem warning_pos (msg : String) (line : Int) (st : St) :
    (warning msg line st).pos = st.pos := by
  rw [warning_eq]

theorem routed_warning (msg : String) (line : Int) {st : St}
    (hp : st.pos ≤ st.input.length) : Routed 0 st (warning msg line st) :=
  routed_emit (warning_input msg line st) (warning_pos msg line st)
    (tot_warning msg line st) hp

theorem routed_s_putch (c : Char) {st : St} (hp : st.pos ≤ st.input.length) :
    Routed 1 st (s_putch c st) :=
  routed_emit (s_putch_input c st) (s_putch_pos c st) (tot_s_putch c st) hp

theorem routed_c_putch (c : Char) {st : St} (hp : st.pos ≤ st.input.length) :
    Routed 1 st (c_putch c st) :=
  routed_emit (c_putch_input c st) (c_putch_pos c st) (tot_c_putch c st) hp

theorem routed_s_putch_repl (c : Char) {st : St} (hp : st.pos ≤ st.input.length) :
    Routed 0 st (s_putch_repl c st) :=
  routed_emit (s_putch_repl_input c st) (s_putch_repl_pos c st) (tot_s_putch_repl c st) hp

theorem tot_s_putstr (str : List Char) (st : St) :
    tot (s_putstr str st) = tot st + str.length := by
  unfold tot
  rw [s_putstr_sCount, s_putstr_cCount]
  omega

theorem routed_s_putstr (str : List Char) {st : St} (hp : st.pos ≤ st.input.length) :
    Routed (str.length : Int) st (s_putstr str st) :=
  routed_emit (s_putstr_input str st) (s_putstr_pos str st) (tot_s_putstr str st) hp

theorem routed_put_quote_char (q c : Char) {st : St} (hp : st.pos ≤ st.input.length) :
    Routed 1 st (put_quote_char q c st) := by
  unfold put_quote_char
  split_ifs <;> exact routed_s_putch _ hp

theorem routed_put_quote_str (q : Char) : ∀ (l : List Char) (st : St),
    st.pos ≤ st.input.length → Routed (l.length : Int) st (put_quote_str q l st) := by
  intro l
  induction l with
  | nil => intro st hp; exact routed_refl hp
  | cons c t ih =>
    intro st hp
    rw [put_quote_str]
    have h1 := routed_put_quote_char q c hp
    have h2 := ih (put_quote_char q c st) (routed_hp h1)
    exact routed_cast (by simp only [List.length_cons]; push_cast; omega) (routed_trans h1 h2)

theorem routed_put_repeat (q c : Char) : ∀ (n : Nat) (st : St),
    st.pos ≤ st.input.length → Routed (n : Int) st (put_repeat q c n st) := by
  intro n
  induction n with
  | zero => intro st hp; exact routed_refl hp
  | succ n ih =>
    intro st hp
    rw [put_repeat]
    have h1 := routed_put_quote_char q c hp
    have h2 := ih (put_quote_char q c st) (routed_hp h1)
    exact routed_cast (by push_cast; omega) (routed_trans h1 h2)

theorem routed_put_pairs (q : Char) : ∀ (n : Nat) (st : St),
    st.pos ≤ st.input.length → Routed (2 * (n : Int)) st (put_pairs q n st) := by
  intro n
  induction n with
  | zero => intro st hp; exact routed_refl hp
  | succ n ih =>
    intro st hp
    rw [put_pairs]
    have h1 := routed_put_quote_str q [BSL, BSL] st hp
    have h2 := ih (put_quote_str q [BSL, BSL] st) (routed_hp h1)
    exact routed_cast (by push_cast; simp only [List.length_cons, List.length_nil]; omega)
      (routed_trans h1 h2)

theorem routed_write_bsnl_s : ∀ (n : Nat) (st : St),
    st.pos ≤ st.input.length → Routed (2 * (n : Int)) st (write_bsnl s_putch n st) := by
  intro n
  induction n with
  | zero => intro st hp; exact routed_refl hp
  | succ n ih =>
    intro st hp
    rw [write_bsnl]
    have h1 := routed_s_putch BSL hp
    have h2 := routed_s_putch NL (routed_hp h1)
    have h3 := ih (s_putch NL (s_putch BSL st)) (routed_hp h2)
    exact routed_cast (by push_cast; omega) (routed_trans (routed_trans h1 h2) h3)

theorem routed_write_bsnl_c : ∀ (n : Nat) (st : St),
    st.pos ≤ st.input.length → Routed (2 * (n : Int)) st (write_bsnl c_putch n st) := by
  intro n
  induction n with
  | zero => intro st hp; exact routed_refl hp
  | succ n ih =>
    intro st hp
    rw [write_bsnl]
    have h1 := routed_c_putch BSL hp
    have h2 := routed_c_putch NL (routed_hp h1)
    have h3 := ih (c_putch NL (c_putch BSL st)) (routed_hp h2)
    exact routed_cast (by push_cast; omega) (routed_trans (routed_trans h1 h2) h3)

theorem routed_warn_feature (f : Feature) {st : St} (hp : st.pos ≤ st.input.length) :
    Routed 0 st (warn_feature f st) := by
  unfold warn_feature
  exact routed_warning _ _ hp

/-- read_bsnl consumes exactly two characters per counted pair and routes
nothing. -/
theorem read_bsnl_spec : ∀ (fuel : Nat) (st : St), st.pos ≤ st.input.length →
    (read_bsnl fuel st).2.input = st.input ∧
    (read_bsnl fuel st).2.pos = st.pos + 2 * (read_bsnl fuel st).1 ∧
    (read_bsnl fuel st).2.pos ≤ st.input.length ∧
    tot (read_bsnl fuel st).2 = tot st := by
  intro fuel
  induction fuel with
  | zero =>
    intro st hp
    rw [read_bsnl]
    exact ⟨rfl, by simp, hp, rfl⟩
  | succ fuel ih =>
    intro st hp
    rw [read_bsnl, peek_eq]
    cases hc : st.input[st.pos]? with
    | none =>
      exact ⟨rfl, by simp, hp, rfl⟩
    | some c =>
      dsimp only
      by_cases hcb : c = BSL
      case neg =>
        rw [if_pos (show c ≠ BSL from hcb)]
        exact ⟨rfl, by simp, hp, rfl⟩
      case pos =>
        subst hcb
        rw [if_neg (show ¬(BSL ≠ BSL) from by simp)]
        rw [peek_eq]
        dsimp only
        rw [getch_input, getch_pos_some hc]
        have hlt := (List.getElem?_eq_some.mp hc).1
        cases h2 : st.input[st.pos + 1]? with
        | none =>
          rw [if_pos (show (none : Option Char) ≠ some NL from by simp), ungetch_getch2 hc]
          exact ⟨rfl, by simp, hp, rfl⟩
        | some d =>
          by_cases hd : d = NL
          case neg =>
            rw [if_pos (show some d ≠ some NL from by simpa using hd), ungetch_getch2 hc]
            exact ⟨rfl, by simp, hp, rfl⟩
          case pos =>
            subst hd
            rw [if_neg (show ¬(some NL ≠ some NL) from by simp)]
            have h2x : (getch st).2.input[(getch st).2.pos]? = some NL := by
              rw [getch_input, getch_pos_some hc]
              exact h2
            have hlt2 := (List.getElem?_eq_some.mp h2).1
            have hrec := ih (getch (getch st).2).2 (by
              rw [getch_pos_some h2x, getch_pos_some hc]
              simp only [getch_input]
              omega)
            rw [getch_pos_some h2x, getch_pos_some hc] at hrec
            simp only [getch_input, tot_getch] at hrec
            obtain ⟨a1, a2, a3, a4⟩ := hrec
            dsimp only
            refine ⟨a1, by omega, by omega, a4⟩

/-- With the input ending in a newline and a backslash just consumed, the
backslash-run loop of endquote always finds a terminating character: it
consumes n characters in total (counting the caller backslash in n),
routes nothing, and leaves the terminator as the last consumed
character. -/
theorem endq_bs_spec : ∀ (fuel : Nat) (st : St),
    st.input.getLast? = some NL → 1 ≤ st.pos → st.pos ≤ st.input.length →
    st.input[st.pos - 1]? = some BSL → st.input.length + 1 ≤ st.pos + fuel →
    ∃ n c2 st2, endq_bs fuel st = (n, some c2, st2) ∧ st2.input = st.input ∧
      tot st2 = tot st ∧ st2.pos = st.pos + n ∧ st2.pos ≤ st.input.length ∧
      1 ≤ n ∧ st2.input[st2.pos - 1]? = some c2 := by
  intro fuel
  induction fuel with
  | zero =>
    intro st hNL h1 hp hprev hf
    exfalso
    omega
  | succ fuel ih =>
    intro st hNL h1 hp hprev hf
    have hlt := pos_lt_of_prev_ne_nl hNL h1 hp hprev bsl_ne_nl
    obtain ⟨c, hc⟩ := exists_getElem_of_lt hlt
    rw [endq_bs, getch_some hc]
    dsimp only
    by_cases hcb : c = BSL
    · rw [if_pos hcb]
      obtain ⟨n, c2, st2, heq, b1, b2, b3, b4, b5, b6⟩ := ih
        { st with pos := st.pos + 1, nline := if c = NL then st.nline + 1 else st.nline }
        hNL (by dsimp only; omega) (by dsimp only; omega)
        (by dsimp only; rw [hcb] at hc; simpa using hc)
        (by dsimp only; omega)
      rw [heq]
      dsimp only at b1 b2 b3 b4 ⊢
      exact ⟨n + 1, c2, st2, rfl, b1, b2, by omega, by omega, by omega, b6⟩
    · rw [if_neg hcb]
      refine ⟨1, c, _, rfl, rfl, rfl, rfl, by dsimp only; omega, le_refl 1, ?_⟩
      dsimp only
      simpa using hc

theorem put_quote_char_pos (q c : Char) (st : St) :
    (put_quote_char q c st).pos = st.pos := by
  unfold put_quote_char
  split_ifs <;> rw [s_putch_pos]

theorem put_quote_char_input (q c : Char) (st : St) :
    (put_quote_char q c st).input = st.input := by
  unfold put_quote_char
  split_ifs <;> rw [s_putch_input]

theorem put_quote_str_pos (q : Char) : ∀ (l : List Char) (st : St),
    (put_quote_str q l st).pos = st.pos := by
  intro l
  induction l with
  | nil => intro st; rfl
  | cons c t ih => intro st; rw [put_quote_str, ih, put_quote_char_pos]

theorem put_repeat_pos (q c : Char) : ∀ (n : Nat) (st : St),
    (put_repeat q c n st).pos = st.pos := by
  intro n
  induction n with
  | zero => intro st; rfl
  | succ n ih => intro st; rw [put_repeat, ih, put_quote_char_pos]

theorem put_pairs_pos (q : Char) : ∀ (n : Nat) (st : St),
    (put_pairs q n st).pos = st.pos := by
  intro n
  induction n with
  | zero => intro st; rfl
  | succ n ih => intro st; rw [put_pairs, ih, put_quote_str_pos]

/-- endquote routes exactly the characters it consumes, provided the
input ends in a newline (so a backslash run cannot reach end of input)
and the fuel covers the remaining input. -/
theorem routed_endquote (q : Char) (msg : String) : ∀ (fuel : Nat) (st : St),
    st.input.getLast? = some NL → st.pos ≤ st.input.length →
    st.input.length + 1 ≤ st.pos + fuel →
    Routed 0 st (endquote q msg fuel st) := by
  intro fuel
  induction fuel with
  | zero =>
    intro st hNL hp hf
    exfalso
    omega
  | succ fuel ih =>
    intro st hNL hp hf
    rw [endquote]
    cases hc : st.input[st.pos]? with
    | none =>
      rw [getch_none hc]
      dsimp only
      unfold warning2
      exact routed_warning _ _ hp
    | some c1 =>
      have r1 : Routed (-1) st (getch st).2 := routed_getch hc
      rw [getch_some hc] at r1 ⊢
      dsimp only at r1 ⊢
      have hlt := (List.getElem?_eq_some.mp hc).1
      by_cases h1 : c1 = q
      · rw [if_pos h1]
        have r2 := routed_s_putch q (routed_hp r1)
        exact routed_cast (by omega) (routed_trans r1 r2)
      · rw [if_neg h1]
        by_cases h2 : c1 = BSL
        · rw [if_pos h2]
          obtain ⟨n, c2, st2, heq, b1, b2, b3, b4, b5, b6⟩ := endq_bs_spec fuel
            { st with pos := st.pos + 1, nline := if c1 = NL then st.nline + 1 else st.nline }
            hNL (by dsimp only; omega) (by dsimp only; omega)
            (by dsimp only; rw [h2] at hc; simpa using hc)
            (by dsimp only; omega)
          rw [heq]
          dsimp only at b1 b2 b3 b4 ⊢
          have rB : Routed (-(n : Int))
              { st with pos := st.pos + 1, nline := if c1 = NL then st.nline + 1 else st.nline }
              st2 := by
            refine ⟨b1, by dsimp only; omega, by dsimp only; omega, ?_⟩
            dsimp only
            omega
          have r2 := routed_trans r1 rB
          by_cases h3 : c2 = NL
          · rw [if_pos h3]
            have r3 := routed_put_repeat q c1 (n - 1) st2 (routed_hp r2)
            have r4 := routed_s_putch c1 (routed_hp r3)
            have r5 := routed_s_putch c2 (routed_hp r4)
            have r6 := routed_trans (routed_trans (routed_trans r2 r3) r4) r5
            have hIH := ih (s_putch c2 (s_putch c1 (put_repeat q c1 (n - 1) st2)))
              (by obtain ⟨a1, _, _, _⟩ := r6; rw [a1]; exact hNL)
              (routed_hp r6)
              (by obtain ⟨a1, a2, a3, a4⟩ := r6
                  have hlen := congrArg List.length a1
                  have hppp : (s_putch c2 (s_putch c1 (put_repeat q c1 (n - 1) st2))).pos
                      = st2.pos := by
                    rw [s_putch_pos, s_putch_pos, put_repeat_pos]
                  omega)
            exact routed_cast (by push_cast; omega) (routed_trans r6 hIH)
          · rw [if_neg h3]
            have r3 := routed_put_pairs q (n / 2) st2 (routed_hp r2)
            have r4 := routed_trans r2 r3
            by_cases h4 : n % 2 = 0
            · rw [if_pos h4]
              have r5 := routed_s_putch c2 (routed_hp r4)
              have r6 := routed_trans r4 r5
              by_cases h5 : c2 = q
              · rw [if_pos h5]
                exact routed_cast (by push_cast; omega) r6
              · rw [if_neg h5]
                have hIH := ih (s_putch c2 (put_pairs q (n / 2) st2))
                  (by obtain ⟨a1, _, _, _⟩ := r6; rw [a1]; exact hNL)
                  (routed_hp r6)
                  (by obtain ⟨a1, a2, a3, a4⟩ := r6
                      have hlen := congrArg List.length a1
                      have hppp : (s_putch c2 (put_pairs q (n / 2) st2)).pos = st2.pos := by
                        rw [s_putch_pos, put_pairs_pos]
                      omega)
                exact routed_cast (by push_cast; omega) (routed_trans r6 hIH)
            · rw [if_neg h4]
              have r5 := routed_put_quote_char q c1 (routed_hp r4)
              have r6 := routed_trans r4 r5
              have r7 := routed_put_quote_char q c2 (routed_hp r6)
              have r8 := routed_trans r6 r7
              by_cases h6 : (c2 = 'u' ∨ c2 = 'U') ∧
                  (put_quote_char q c2 (put_quote_char q c1
                    (put_pairs q (n / 2) st2))).feat.f_Universal = false
              · rw [if_pos h6]
                have r9 := routed_warn_feature F_UNIVERSAL (routed_hp r8)
                have r10 := routed_trans r8 r9
                have hIH := ih (warn_feature F_UNIVERSAL (put_quote_char q c2
                    (put_quote_char q c1 (put_pairs q (n / 2) st2))))
                  (by obtain ⟨a1, _, _, _⟩ := r10; rw [a1]; exact hNL)
                  (routed_hp r10)
                  (by obtain ⟨a1, a2, a3, a4⟩ := r10
                      have hlen := congrArg List.length a1
                      have hppp : (warn_feature F_UNIVERSAL (put_quote_char q c2
                          (put_quote_char q c1 (put_pairs q (n / 2) st2)))).pos
                          = st2.pos := by
                        unfold warn_feature
                        rw [warning_pos, put_quote_char_pos, put_quote_char_pos,
                            put_pairs_pos]
                      omega)
                exact routed_cast (by push_cast; omega) (routed_trans r10 hIH)
              · rw [if_neg h6]
                have hIH := ih (put_quote_char q c2
                    (put_quote_char q c1 (put_pairs q (n / 2) st2)))
                  (by obtain ⟨a1, _, _, _⟩ := r8; rw [a1]; exact hNL)
                  (routed_hp r8)
                  (by obtain ⟨a1, a2, a3, a4⟩ := r8
                      have hlen := congrArg List.length a1
                      have hppp : (put_quote_char q c2 (put_quote_char q c1
                          (put_pairs q (n / 2) st2))).pos = st2.pos := by
                        rw [put_quote_char_pos, put_quote_char_pos, put_pairs_pos]
                      omega)
                exact routed_cast (by push_cast; omega) (routed_trans r8 hIH)
        · rw [if_neg h2]
          by_cases h3 : c1 = NL
          · rw [if_pos h3]
            have r2 := routed_put_quote_char q c1 (routed_hp r1)
            have r3 := routed_trans r1 r2
            unfold warning2
            exact routed_cast (by omega) (routed_trans r3 (routed_warning _ _ (routed_hp r3)))
          · rw [if_neg h3]
            have r2 := routed_put_quote_char q c1 (routed_hp r1)
            have r3 := routed_trans r1 r2
            have hIH := ih (put_quote_char q c1
                { st with pos := st.pos + 1,
                          nline := if c1 = NL then st.nline + 1 else st.nline })
              (by obtain ⟨a1, _, _, _⟩ := r3; rw [a1]; exact hNL)
              (routed_hp r3)
              (by obtain ⟨a1, a2, a3, a4⟩ := r3
                  have hlen := congrArg List.length a1
                  have hppp : (put_quote_char q c1
                      { st with pos := st.pos + 1,
                                nline := if c1 = NL then st.nline + 1
                                         else st.nline }).pos = st.pos + 1 := by
                    rw [put_quote_char_pos]
                  omega)
            exact routed_cast (by omega) (routed_trans r3 hIH)

theorem warn_ite_pos (P : Prop) [Decidable P] (f : Feature) (st : St) :
    (if P then warn_feature f st else st).pos = st.pos := by
  split
  · unfold warn_feature
    rw [warning_pos]
  · rfl

theorem warn_ite_input (P : Prop) [Decidable P] (f : Feature) (st : St) :
    (if P then warn_feature f st else st).input = st.input := by
  split
  · unfold warn_feature
    rw [warning_input]
  · rfl

theorem routed_warn_ite (P : Prop) [Decidable P] (f : Feature) {st : St}
    (hp : st.pos ≤ st.input.length) : Routed 0 st (if P then warn_feature f st else st) := by
  split
  · exact routed_warn_feature f hp
  · exact routed_refl hp

/-! Chain-extension forms of the emission lemmas: each extends a Routed
chain by one output action, with the new state inferred from the goal. -/

theorem routed_step_s_putch {k : Int} {st st2 : St} (c : Char) (h : Routed k st st2) :
    Routed (k + 1) st (s_putch c st2) :=
  routed_trans h (routed_s_putch c (routed_hp h))

theorem routed_step_c_putch {k : Int} {st st2 : St} (c : Char) (h : Routed k st st2) :
    Routed (k + 1) st (c_putch c st2) :=
  routed_trans h (routed_c_putch c (routed_hp h))

theorem routed_step_s_putch_repl {k : Int} {st st2 : St} (c : Char) (h : Routed k st st2) :
    Routed k st (s_putch_repl c st2) :=
  routed_cast (by omega) (routed_trans h (routed_s_putch_repl c (routed_hp h)))

theorem routed_step_s_putstr {k : Int} {st st2 : St} (l : List Char) (h : Routed k st st2) :
    Routed (k + l.length) st (s_putstr l st2) :=
  routed_trans h (routed_s_putstr l (routed_hp h))

theorem routed_step_warning {k : Int} {st st2 : St} (msg : String) (line : Int)
    (h : Routed k st st2) : Routed k st (warning msg line st2) :=
  routed_cast (by omega) (routed_trans h (routed_warning msg line (routed_hp h)))

theorem routed_step_warn_ite {k : Int} {st st2 : St} (P : Prop) [Decidable P] (f : Feature)
    (h : Routed k st st2) : Routed k st (if P then warn_feature f st2 else st2) :=
  routed_cast (by omega) (routed_trans h (routed_warn_ite P f (routed_hp h)))

theorem routed_step_put_quote_char {k : Int} {st st2 : St} (q c : Char) (h : Routed k st st2) :
    Routed (k + 1) st (put_quote_char q c st2) :=
  routed_trans h (routed_put_quote_char q c (routed_hp h))

theorem routed_step_put_quote_str {k : Int} {st st2 : St} (q : Char) (l : List Char)
    (h : Routed k st st2) : Routed (k + l.length) st (put_quote_str q l st2) :=
  routed_trans h (routed_put_quote_str q l st2 (routed_hp h))

theorem routed_step_write_bsnl_s {k : Int} {st st2 : St} (n : Nat) (h : Routed k st st2) :
    Routed (k + 2 * n) st (write_bsnl s_putch n st2) :=
  routed_trans h (routed_write_bsnl_s n st2 (routed_hp h))

theorem routed_step_write_bsnl_c {k : Int} {st st2 : St} (n : Nat) (h : Routed k st st2) :
    Routed (k + 2 * n) st (write_bsnl c_putch n st2) :=
  routed_trans h (routed_write_bsnl_c n st2 (routed_hp h))

theorem routed_step_getch {k : Int} {st st2 : St} {c : Char} (h : Routed k st st2)
    (hc : st2.input[st2.pos]? = some c) : Routed (k - 1) st (getch st2).2 :=
  routed_cast (by omega) (routed_trans h (routed_getch hc))

/-- Eta form of a successful getch, for reducing the match without
materializing the updated state. -/
theorem getch_eta_some {st : St} {c : Char} (h : st.input[st.pos]? = some c) :
    getch st = (some c, (getch st).2) := by
  rw [getch_some h]

theorem s_putch_getElem (c : Char) (st : St) :
    (s_putch c st).input[(s_putch c st).pos]? = st.input[st.pos]? := by
  rw [s_putch_input, s_putch_pos]

theorem s_putstr_getElem (l : List Char) (st : St) :
    (s_putstr l st).input[(s_putstr l st).pos]? = st.input[st.pos]? := by
  rw [s_putstr_input, s_putstr_pos]

theorem warn_ite_getElem (P : Prop) [Decidable P] (f : Feature) (st : St) :
    (if P then warn_feature f st else st).input[(if P then warn_feature f st
      else st).pos]? = st.input[st.pos]? := by
  rw [warn_ite_input, warn_ite_pos]

/-- check_punct consumes the separator and routes it; the neighbour
checks only peek and warn. -/
theorem routed_check_punct (oc : Char) (dc : Char → Bool) {st : St}
    (hp : st.pos ≤ st.input.length) : Routed 0 st (check_punct oc dc st).2 := by
  unfold check_punct
  cases hc : st.input[st.pos]? with
  | none =>
    rw [getch_none hc]
    exact routed_refl hp
  | some sq =>
    rw [getch_eta_some hc]
    dsimp only
    have r1 : Routed (-1) st (getch st).2 := routed_getch hc
    by_cases h1 : dc oc = false
    · rw [if_pos h1]
      dsimp only
      exact routed_cast (by omega) (routed_step_warning _ _
        (routed_step_warn_ite _ F_NUMPUNCT (routed_step_s_putch sq r1)))
    · rw [if_neg h1]
      rw [peek_eq]
      rw [warn_ite_getElem, s_putch_getElem, getch_input, getch_pos_some hc]
      cases h2 : st.input[st.pos + 1]? with
      | none =>
        dsimp only
        exact routed_cast (by omega) (routed_step_warning _ _
          (routed_step_warn_ite _ F_NUMPUNCT (routed_step_s_putch sq r1)))
      | some pc =>
        dsimp only
        by_cases h3 : dc pc = false
        · rw [if_pos h3]
          dsimp only
          exact routed_cast (by omega) (routed_step_warning _ _
            (routed_step_warn_ite _ F_NUMPUNCT (routed_step_s_putch sq r1)))
        · rw [if_neg h3]
          dsimp only
          exact routed_cast (by omega)
            (routed_step_warn_ite _ F_NUMPUNCT (routed_step_s_putch sq r1))

theorem routed_exp_digits : ∀ (fuel count : Nat) (st : St), st.pos ≤ st.input.length →
    Routed 0 st (exp_digits fuel count st).2 := by
  intro fuel
  induction fuel with
  | zero =>
    intro count st hp
    rw [exp_digits]
    exact routed_refl hp
  | succ fuel ih =>
    intro count st hp
    rw [exp_digits, peek_eq]
    cases hpc : st.input[st.pos]? with
    | none => exact routed_refl hp
    | some pc =>
      dsimp only
      by_cases hd : isdigitC pc
      · rw [if_pos hd]
        rw [getch_eta_some hpc]
        dsimp only
        have r1 := routed_step_s_putch pc (routed_getch hpc)
        exact routed_cast (by omega)
          (routed_trans r1 (ih (count + 1) _ (routed_hp r1)))
      · rw [if_neg hd]
        exact routed_refl hp

theorem routed_parse_exponent (fuel : Nat) {st : St} (hp : st.pos ≤ st.input.length) :
    Routed 0 st (parse_exponent fuel st) := by
  unfold parse_exponent
  cases hc : st.input[st.pos]? with
  | none =>
    rw [getch_none hc]
    exact routed_refl hp
  | some c =>
    rw [getch_eta_some hc]
    dsimp only
    rw [peek_eq]
    dsimp only
    rw [s_putch_getElem, getch_input, getch_pos_some hc]
    have r1 := routed_step_s_putch c (routed_getch hc)
    cases h2 : st.input[st.pos + 1]? with
    | none =>
      rw [if_neg (show ¬((none : Option Char) = some '+' ∨ (none : Option Char) = some '-')
            from by simp)]
      have r3 := routed_trans r1 (routed_exp_digits fuel 0 _ (routed_hp r1))
      split
      · exact routed_cast (by omega) (routed_step_warning _ _ r3)
      · exact routed_cast (by omega) r3
    | some d =>
      by_cases hsign : ((some d : Option Char) = some '+' ∨ (some d : Option Char) = some '-')
      · rw [if_pos hsign]
        have h2x : (s_putch c (getch st).2).input[(s_putch c (getch st).2).pos]? = some d := by
          rw [s_putch_getElem, getch_input, getch_pos_some hc]
          exact h2
        rw [getch_eta_some h2x]
        dsimp only
        have r2 := routed_step_s_putch d (routed_step_getch r1 h2x)
        have r3 := routed_trans r2 (routed_exp_digits fuel 0 _ (routed_hp r2))
        split
        · exact routed_cast (by omega) (routed_step_warning _ _ r3)
        · exact routed_cast (by omega) r3
      · rw [if_neg hsign]
        have r3 := routed_trans r1 (routed_exp_digits fuel 0 _ (routed_hp r1))
        split
        · exact routed_cast (by omega) (routed_step_warning _ _ r3)
        · exact routed_cast (by omega) r3

theorem routed_hex_loop : ∀ (fuel : Nat) (oc : Char) (w : Bool) (st : St),
    st.pos ≤ st.input.length → Routed 0 st (hex_loop fuel oc w st).2.2 := by
  intro fuel
  induction fuel with
  | zero =>
    intro oc w st hp
    rw [hex_loop]
    exact routed_refl hp
  | succ fuel ih =>
    intro oc w st hp
    rw [hex_loop, peek_eq]
    cases hpc : st.input[st.pos]? with
    | none => exact routed_refl hp
    | some pc =>
      dsimp only
      by_cases h1 : pc = SQ
      · rw [if_pos h1]
        have r1 := routed_check_punct oc isxdigitC hp
        exact routed_cast (by omega) (routed_trans r1 (ih _ _ _ (routed_hp r1)))
      · rw [if_neg h1]
        by_cases h2 : (isxdigitC pc ∨ pc = '.')
        · rw [if_pos h2]
          have hx : (if pc = '.' ∧ st.feat.f_HexFloat = false ∧ w = false
                then warn_feature F_HEXFLOAT st
                else st).input[(if pc = '.' ∧ st.feat.f_HexFloat = false ∧ w = false
                then warn_feature F_HEXFLOAT st else st).pos]? = some pc := by
            rw [warn_ite_getElem]
            exact hpc
          rw [getch_eta_some hx]
          dsimp only
          have r1 := routed_step_s_putch pc
            (routed_step_getch (routed_warn_ite _ F_HEXFLOAT hp) hx)
          exact routed_cast (by omega) (routed_trans r1 (ih _ _ _ (routed_hp r1)))
        · rw [if_neg h2]
          exact routed_refl hp

theorem routed_parse_hex (fuel : Nat) {st : St} (hp : st.pos ≤ st.input.length) :
    Routed 1 st (parse_hex fuel st) := by
  unfold parse_hex
  dsimp only
  have key := s_putch_getElem '0' st
  cases hc : st.input[st.pos]? with
  | none =>
    rw [getch_none (key.trans hc)]
    exact routed_s_putch '0' hp
  | some c =>
    rw [getch_eta_some (key.trans hc)]
    dsimp only
    have r1 := routed_step_s_putch c
      (routed_step_getch (routed_s_putch '0' hp) (key.trans hc))
    have r2 := routed_trans r1 (routed_hex_loop fuel c false _ (routed_hp r1))
    split
    · exact routed_cast (by omega)
        (routed_trans (routed_step_warn_ite _ F_HEXFLOAT r2)
          (routed_parse_exponent fuel (routed_hp (routed_step_warn_ite _ F_HEXFLOAT r2))))
    · exact routed_cast (by omega) r2

theorem routed_bin_loop : ∀ (fuel : Nat) (oc : Char) (st : St),
    st.pos ≤ st.input.length → Routed 0 st (bin_loop fuel oc st).2 := by
  intro fuel
  induction fuel with
  | zero =>
    intro oc st hp
    rw [bin_loop]
    exact routed_refl hp
  | succ fuel ih =>
    intro oc st hp
    rw [bin_loop, peek_eq]
    cases hpc : st.input[st.pos]? with
    | none => exact routed_refl hp
    | some pc =>
      dsimp only
      by_cases h1 : pc = SQ
      · rw [if_pos h1]
        have r1 := routed_check_punct oc is_binary hp
        exact routed_cast (by omega) (routed_trans r1 (ih _ _ (routed_hp r1)))
      · rw [if_neg h1]
        by_cases h2 : is_binary pc
        · rw [if_pos h2]
          rw [getch_eta_some hpc]
          dsimp only
          have r1 := routed_step_s_putch pc (routed_getch hpc)
          exact routed_cast (by omega) (routed_trans r1 (ih _ _ (routed_hp r1)))
        · rw [if_neg h2]
          exact routed_refl hp

theorem routed_oct_loop : ∀ (fuel : Nat) (oc : Char) (st : St),
    st.pos ≤ st.input.length → Routed 0 st (oct_loop fuel oc st).2 := by
  intro fuel
  induction fuel with
  | zero =>
    intro oc st hp
    rw [oct_loop]
    exact routed_refl hp
  | succ fuel ih =>
    intro oc st hp
    rw [oct_loop, peek_eq]
    cases hpc : st.input[st.pos]? with
    | none => exact routed_refl hp
    | some pc =>
      dsimp only
      by_cases h1 : pc = SQ
      · rw [if_pos h1]
        have r1 := routed_check_punct oc is_octal hp
        exact routed_cast (by omega) (routed_trans r1 (ih _ _ (routed_hp r1)))
      · rw [if_neg h1]
        by_cases h2 : is_octal pc
        · rw [if_pos h2]
          rw [getch_eta_some hpc]
          dsimp only
          have r1 := routed_step_s_putch pc (routed_getch hpc)
          exact routed_cast (by omega) (routed_trans r1 (ih _ _ (routed_hp r1)))
        · rw [if_neg h2]
          exact routed_refl hp

theorem routed_dec_loop : ∀ (fuel : Nat) (oc : Char) (st : St),
    st.pos ≤ st.input.length → Routed 0 st (dec_loop fuel oc st).2 := by
  intro fuel
  induction fuel with
  | zero =>
    intro oc st hp
    rw [dec_loop]
    exact routed_refl hp
  | succ fuel ih =>
    intro oc st hp
    rw [dec_loop, peek_eq]
    cases hpc : st.input[st.pos]? with
    | none => exact routed_refl hp
    | some pc =>
      dsimp only
      by_cases h1 : pc = SQ
      · rw [if_pos h1]
        have r1 := routed_check_punct oc isdigitC hp
        exact routed_cast (by omega) (routed_trans r1 (ih _ _ (routed_hp r1)))
      · rw [if_neg h1]
        by_cases h2 : isdigitC pc
        · rw [if_pos h2]
          rw [getch_eta_some hpc]
          dsimp only
          have r1 := routed_step_s_putch pc (routed_getch hpc)
          exact routed_cast (by omega) (routed_trans r1 (ih _ _ (routed_hp r1)))
        · rw [if_neg h2]
          exact routed_refl hp

theorem routed_parse_binary (fuel : Nat) {st : St} (hp : st.pos ≤ st.input.length) :
    Routed 1 st (parse_binary fuel st) := by
  unfold parse_binary
  dsimp only
  have key : (s_putch '0' (if st.feat.f_Binary = false then warn_feature F_BINARY st
        else st)).input[(s_putch '0' (if st.feat.f_Binary = false
        then warn_feature F_BINARY st else st)).pos]? = st.input[st.pos]? := by
    rw [s_putch_getElem, warn_ite_getElem]
  cases hc : st.input[st.pos]? with
  | none =>
    rw [getch_none (key.trans hc)]
    exact routed_cast (by omega) (routed_step_s_putch '0' (routed_warn_ite _ F_BINARY hp))
  | some c =>
    rw [getch_eta_some (key.trans hc)]
    dsimp only
    have r1 := routed_step_s_putch c (routed_step_getch
      (routed_step_s_putch '0' (routed_warn_ite _ F_BINARY hp)) (key.trans hc))
    have r2 := routed_trans r1 (routed_bin_loop fuel c _ (routed_hp r1))
    split
    · rename_i pc st4 heq
      rw [heq] at r2
      dsimp only at r2
      split
      · exact routed_cast (by omega) (routed_step_warning _ _ r2)
      · exact routed_cast (by omega) r2
    · rename_i st4 heq
      rw [heq] at r2
      dsimp only at r2
      exact routed_cast (by omega) r2

theorem routed_parse_octal (fuel : Nat) {st : St} (hp : st.pos ≤ st.input.length) :
    Routed 1 st (parse_octal fuel st) := by
  unfold parse_octal
  dsimp only
  have key := s_putch_getElem '0' st
  cases hc : st.input[st.pos]? with
  | none =>
    rw [getch_none (key.trans hc)]
    exact routed_s_putch '0' hp
  | some c =>
    rw [getch_eta_some (key.trans hc)]
    dsimp only
    have r1 := routed_step_s_putch c
      (routed_step_getch (routed_s_putch '0' hp) (key.trans hc))
    have r2 := routed_trans r1 (routed_oct_loop fuel c _ (routed_hp r1))
    split
    · rename_i pc st4 heq
      rw [heq] at r2
      dsimp only at r2
      split
      · exact routed_cast (by omega) (routed_step_warning _ _ r2)
      · exact routed_cast (by omega) r2
    · rename_i st4 heq
      rw [heq] at r2
      dsimp only at r2
      exact routed_cast (by omega) r2

theorem routed_parse_decimal (c : Char) (fuel : Nat) {st : St}
    (hp : st.pos ≤ st.input.length) : Routed 1 st (parse_decimal c fuel st) := by
  unfold parse_decimal
  dsimp only
  rw [peek_eq]
  rw [s_putch_getElem]
  have r0 := routed_s_putch c hp
  cases hpc : st.input[st.pos]? with
  | none => exact r0
  | some pc =>
    dsimp only
    by_cases h1 : (isdigitC pc ∨ pc = SQ)
    · rw [if_pos h1]
      have hx : (s_putch c st).input[(s_putch c st).pos]? = some pc := by
        rw [s_putch_getElem]
        exact hpc
      rw [getch_eta_some hx]
      dsimp only
      have r1 := routed_step_s_putch pc (routed_step_getch r0 hx)
      have r2 := routed_trans r1 (routed_dec_loop fuel pc _ (routed_hp r1))
      split
      · rename_i e st4 heq
        rw [heq] at r2
        dsimp only at r2
        split
        · exact routed_cast (by omega)
            (routed_trans r2 (routed_parse_exponent fuel (routed_hp r2)))
        · exact routed_cast (by omega) r2
      · rename_i st4 heq
        rw [heq] at r2
        dsimp only at r2
        exact routed_cast (by omega) r2
    · rw [if_neg h1]
      exact r0

theorem routed_parse_number (c : Char) (fuel : Nat) {st : St}
    (hp : st.pos ≤ st.input.length) : Routed 1 st (parse_number c fuel st) := by
  unfold parse_number
  dsimp only
  rw [peek_eq]
  dsimp only
  by_cases h0 : c ≠ '0'
  · rw [if_pos h0]
    exact routed_parse_decimal c fuel hp
  · rw [if_neg h0]
    cases hpc : st.input[st.pos]? with
    | none =>
      rw [if_neg (by simp), if_neg (by simp), if_neg (by simp [opt_is]),
          if_neg (by simp), if_neg (by simp [opt_is])]
      exact routed_s_putch c hp
    | some pc =>
      by_cases h1 : ((some pc : Option Char) = some 'x' ∨ (some pc : Option Char) = some 'X')
      · rw [if_pos h1]
        exact routed_parse_hex fuel hp
      · rw [if_neg h1]
        by_cases h2 : ((some pc : Option Char) = some 'b' ∨ (some pc : Option Char) = some 'B')
        · rw [if_pos h2]
          exact routed_parse_binary fuel hp
        · rw [if_neg h2]
          by_cases h3 : opt_is (some pc) (fun d => is_octal d || d = SQ) = true
          · rw [if_pos h3]
            exact routed_parse_octal fuel hp
          · rw [if_neg h3]
            by_cases h4 : ((some pc : Option Char) = some 'e' ∨
                (some pc : Option Char) = some 'E' ∨ (some pc : Option Char) = some '.')
            · rw [if_pos h4]
              exact routed_parse_decimal c fuel hp
            · rw [if_neg h4]
              split
              · exact routed_s_putch c hp
              · exact routed_s_putch c hp

theorem routed_ucn_loop : ∀ (n : Nat) (acc : List Char) (st : St),
    st.pos ≤ st.input.length → Routed 0 st (ucn_loop n acc st).2.2.2 := by
  intro n
  induction n with
  | zero =>
    intro acc st hp
    rw [ucn_loop]
    exact routed_refl hp
  | succ n ih =>
    intro acc st hp
    rw [ucn_loop]
    cases hc : st.input[st.pos]? with
    | none =>
      rw [getch_none hc]
      exact routed_refl hp
    | some c =>
      rw [getch_eta_some hc]
      dsimp only
      have r1 := routed_step_s_putch c (routed_getch hc)
      split
      · exact routed_cast (by omega) r1
      · exact routed_cast (by omega) (routed_trans r1 (ih _ _ (routed_hp r1)))

theorem routed_scan_ucn (letter : Char) (nbytes : Nat) {st : St} {d : Char}
    (hd : st.input[st.pos]? = some d) (hp : st.pos ≤ st.input.length) :
    Routed 1 st (scan_ucn letter nbytes st) := by
  unfold scan_ucn
  dsimp only
  have key : (s_putch BSL (if st.feat.f_Universal = false then warn_feature F_UNIVERSAL st
        else st)).input[(s_putch BSL (if st.feat.f_Universal = false
        then warn_feature F_UNIVERSAL st else st)).pos]? = some d := by
    rw [s_putch_getElem, warn_ite_getElem]
    exact hd
  rw [getch_eta_some key]
  dsimp only
  have r1 := routed_step_s_putch d (routed_step_getch
    (routed_step_s_putch BSL (routed_warn_ite _ F_UNIVERSAL hp)) key)
  have r2 := routed_trans r1 (routed_ucn_loop nbytes [] _ (routed_hp r1))
  split
  · rename_i x1 x2 st4 heq
    rw [heq] at r2
    dsimp only at r2
    exact routed_cast (by omega) r2
  · rename_i digits lastc st4 heq
    rw [heq] at r2
    dsimp only at r2
    exact routed_cast (by omega) (routed_step_warning _ _ r2)

theorem routed_read_remainder : ∀ (fuel : Nat) (st : St), st.pos ≤ st.input.length →
    Routed 0 st (read_remainder_of_identifier fuel st) := by
  intro fuel
  induction fuel with
  | zero =>
    intro st hp
    rw [read_remainder_of_identifier]
    exact routed_refl hp
  | succ fuel ih =>
    intro st hp
    rw [read_remainder_of_identifier, peek_eq]
    cases hpc : st.input[st.pos]? with
    | none => exact routed_refl hp
    | some c =>
      dsimp only
      by_cases h1 : is_idchar c
      · rw [if_pos h1]
        rw [getch_eta_some hpc]
        dsimp only
        have r1 := routed_step_s_putch c (routed_getch hpc)
        exact routed_cast (by omega) (routed_trans r1 (ih _ (routed_hp r1)))
      · rw [if_neg h1]
        exact routed_refl hp

/-- raw_scan_marker routes nothing; it consumes one character per marker
character collected, plus the opening parenthesis on success, and never
collects a newline. -/
theorem raw_scan_marker_spec (pfx : List Char) : ∀ (fuel : Nat) (acc : List Char) (st : St),
    st.pos ≤ st.input.length →
    (raw_scan_marker pfx fuel acc st).2.2.input = st.input ∧
    (raw_scan_marker pfx fuel acc st).2.2.pos ≤ st.input.length ∧
    tot (raw_scan_marker pfx fuel acc st).2.2 = tot st ∧
    acc.length ≤ (raw_scan_marker pfx fuel acc st).2.1.length ∧
    ((raw_scan_marker pfx fuel acc st).1 = true →
      (raw_scan_marker pfx fuel acc st).2.2.pos + acc.length
        = st.pos + (raw_scan_marker pfx fuel acc st).2.1.length + 1) ∧
    ((raw_scan_marker pfx fuel acc st).1 = false →
      (raw_scan_marker pfx fuel acc st).2.2.pos + acc.length
        = st.pos + (raw_scan_marker pfx fuel acc st).2.1.length) ∧
    ((raw_scan_marker pfx fuel acc st).1 = true →
      NL ∈ (raw_scan_marker pfx fuel acc st).2.1 → NL ∈ acc) := by
  intro fuel
  induction fuel with
  | zero =>
    intro acc st hp
    rw [raw_scan_marker]
    exact ⟨rfl, hp, rfl, le_refl _, by simp, by simp, by simp⟩
  | succ fuel ih =>
    intro acc st hp
    rw [raw_scan_marker]
    cases hc : st.input[st.pos]? with
    | none =>
      rw [getch_none hc]
      dsimp only
      rw [warning_input, warning_pos, tot_warning]
      exact ⟨rfl, hp, rfl, le_refl _, by simp, by simp, by simp⟩
    | some c =>
      rw [getch_eta_some hc]
      dsimp only
      have hlt := (List.getElem?_eq_some.mp hc).1
      have hx1 : (getch st).2.pos = st.pos + 1 := getch_pos_some hc
      by_cases h1 : c = '('
      · rw [if_pos h1]
        dsimp only
        rw [getch_input, tot_getch]
        refine ⟨rfl, by omega, rfl, le_refl _, by intro h; omega, by simp, ?_⟩
        intro h hin
        exact hin
      · rw [if_neg h1]
        by_cases h2 : (bad_mark_char c ∨ 16 ≤ acc.length)
        · rw [if_pos h2]
          dsimp only
          rw [warning_input, warning_pos, tot_warning, getch_input, tot_getch]
          refine ⟨rfl, by omega, rfl, by simp, by simp, ?_, by simp⟩
          intro h
          simp only [List.length_append, List.length_cons, List.length_nil]
          omega
        · rw [if_neg h2]
          obtain ⟨a1, a2, a3, a4, a5, a6, a7⟩ := ih (acc ++ [c]) (getch st).2
            (by rw [getch_input]; omega)
          rw [getch_input] at a1 a2
          rw [tot_getch] at a3
          rw [hx1] at a5 a6
          simp only [List.length_append, List.length_cons, List.length_nil] at a4 a5 a6
          refine ⟨a1, a2, a3, by omega, by intro h; have := a5 h; omega,
            by intro h; have := a6 h; omega, ?_⟩
          intro h hin
          have h3 := a7 h hin
          rw [List.mem_append] at h3
          rcases h3 with h3 | h3
          · exact h3
          · exfalso
            simp only [List.mem_singleton] at h3
            have hb : bad_mark_char c = true := by
              rw [← h3]
              decide
            rw [not_or] at h2
            exact h2.1 hb

/-- The raw-string scanning loops route exactly what they consume: the
outer loop is balanced, the inner loop additionally owes the pending
right parenthesis and len matched marker characters its caller consumed.
Requires the input to end in a newline (so the inner loop never loses
its pending buffer to end of input) and a newline-free marker. -/
theorem routed_raw : ∀ fuel : Nat,
    (∀ (mark : List Char) (line1 : Int) (st : St),
      st.input.getLast? = some NL → (NL ∈ mark → False) →
      st.pos ≤ st.input.length → st.input.length + 1 ≤ st.pos + fuel →
      Routed 0 st (raw_outer mark line1 fuel st)) ∧
    (∀ (mark : List Char) (line1 : Int) (len : Nat) (st : St) (pc : Char),
      st.input.getLast? = some NL → (NL ∈ mark → False) → len ≤ mark.length →
      st.pos ≤ st.input.length → st.input.length + 1 ≤ st.pos + fuel →
      1 ≤ st.pos → st.input[st.pos - 1]? = some pc → pc ≠ NL →
      Routed (1 + (len : Int)) st (raw_inner mark line1 len fuel st)) := by
  intro fuel
  induction fuel with
  | zero =>
    constructor
    · intro mark line1 st hNL hm hp hf
      rw [raw_outer]
      exact routed_refl hp
    · intro mark line1 len st pc hNL hm hlen hp hf hpos hprev hpcnl
      exfalso
      omega
  | succ fuel ih =>
    constructor
    · intro mark line1 st hNL hm hp hf
      rw [raw_outer]
      cases hc : st.input[st.pos]? with
      | none =>
        rw [getch_none hc]
        dsimp only
        exact routed_warning _ _ hp
      | some c =>
        rw [getch_eta_some hc]
        dsimp only
        have hx1 : (getch st).2.pos = st.pos + 1 := getch_pos_some hc
        by_cases h1 : c ≠ ')'
        · rw [if_pos h1]
          have r1 := routed_step_s_putch c (routed_getch hc)
          obtain ⟨a1, a2, a3, a4⟩ := r1
          have hlen1 := congrArg List.length a1
          have hx2 : (s_putch c (getch st).2).pos = st.pos + 1 := by
            rw [s_putch_pos, hx1]
          exact routed_cast (by omega) (routed_trans ⟨a1, a2, a3, a4⟩
            (ih.1 mark line1 _ (by rw [a1]; exact hNL) hm (by omega) (by omega)))
        · rw [if_neg h1]
          rw [not_not] at h1
          obtain ⟨hprev1, hpos1⟩ := getch_prev hc
          have r0 := routed_getch hc
          obtain ⟨a1, a2, a3, a4⟩ := r0
          have hlen1 := congrArg List.length a1
          exact routed_cast (by omega) (routed_trans ⟨a1, a2, a3, a4⟩
            (ih.2 mark line1 0 _ ')' (by rw [a1]; exact hNL) hm (by omega)
              (by omega) (by omega) hpos1
              (by rw [h1] at hprev1; exact hprev1) (by decide)))
    · intro mark line1 len st pc hNL hm hlen hp hf hpos hprev hpcnl
      have hlt := pos_lt_of_prev_ne_nl hNL hpos hp hprev hpcnl
      obtain ⟨c, hc⟩ := exists_getElem_of_lt hlt
      rw [raw_inner, getch_eta_some hc]
      dsimp only
      have hx1 : (getch st).2.pos = st.pos + 1 := getch_pos_some hc
      have r0 := routed_getch hc
      by_cases h1 : (c = DQ ∧ len = mark.length)
      · rw [if_pos h1]
        have r3 := routed_step_s_putch DQ
          (routed_step_s_putstr mark (routed_step_s_putch ')' r0))
        exact routed_cast (by
          rw [h1.2]
          push_cast
          omega) r3
      · rw [if_neg h1]
        by_cases h2 : mark[len]? = some c
        · rw [if_pos h2]
          obtain ⟨hprev1, hpos1⟩ := getch_prev hc
          obtain ⟨a1, a2, a3, a4⟩ := r0
          have hlen1 := congrArg List.length a1
          have hlt2 := (List.getElem?_eq_some.mp h2).1
          have hcm : c ∈ mark := List.getElem?_mem h2
          exact routed_cast (by push_cast; omega) (routed_trans ⟨a1, a2, a3, a4⟩
            (ih.2 mark line1 (len + 1) _ c (by rw [a1]; exact hNL) hm (by omega)
              (by omega) (by omega) hpos1 hprev1
              (fun hnl => hm (hnl ▸ hcm))))
        · rw [if_neg h2]
          by_cases h3 : c = ')'
          · rw [if_pos h3]
            obtain ⟨hprev1, hpos1⟩ := getch_prev hc
            have r3 := routed_step_s_putstr (mark.take len) (routed_step_s_putch ')' r0)
            obtain ⟨a1, a2, a3, a4⟩ := r3
            have hlen1 := congrArg List.length a1
            have hx3 : (s_putstr (mark.take len) (s_putch ')' (getch st).2)).pos
                = st.pos + 1 := by
              rw [s_putstr_pos, s_putch_pos, hx1]
            have htk : (mark.take len).length = len := by
              rw [List.length_take]
              omega
            exact routed_cast (by rw [htk]; push_cast; omega)
              (routed_trans ⟨a1, a2, a3, a4⟩
                (ih.2 mark line1 0 _ ')' (by rw [a1]; exact hNL) hm (by omega)
                  (by omega) (by omega) (by omega)
                  (by rw [s_putstr_input, s_putstr_pos, s_putch_input, s_putch_pos,
                          hx1]
                      rw [hx1] at hprev1
                      rw [h3] at hprev1
                      exact hprev1)
                  (by decide)))
          · rw [if_neg h3]
            have r3 := routed_step_s_putch c (routed_step_s_putstr (mark.take len)
              (routed_step_s_putch ')' r0))
            obtain ⟨a1, a2, a3, a4⟩ := r3
            have hlen1 := congrArg List.length a1
            have hx3 : (s_putch c (s_putstr (mark.take len)
                (s_putch ')' (getch st).2))).pos = st.pos + 1 := by
              rw [s_putch_pos, s_putstr_pos, s_putch_pos, hx1]
            have htk : (mark.take len).length = len := by
              rw [List.length_take]
              omega
            exact routed_cast (by rw [htk]; push_cast; omega)
              (routed_trans ⟨a1, a2, a3, a4⟩
                (ih.1 mark line1 _ (by rw [a1]; exact hNL) hm (by omega) (by omega)))

/-- parse_raw_string routes the marker characters and the opening
parenthesis it consumed, the body, and the double quote its caller
consumed for it. -/
theorem routed_parse_raw_string (pfx : List Char) (fuel : Nat) {st : St}
    (hNL : st.input.getLast? = some NL) (hp : st.pos ≤ st.input.length)
    (hf : st.input.length + 1 ≤ st.pos + fuel) :
    Routed 1 st (parse_raw_string pfx fuel st) := by
  unfold parse_raw_string
  obtain ⟨a1, a2, a3, a4, a5, a6, a7⟩ := raw_scan_marker_spec pfx fuel [] st hp
  rcases hm : raw_scan_marker pfx fuel [] st with ⟨ok, mark, st2⟩
  rw [hm] at a1 a2 a3 a4 a5 a6 a7
  dsimp only at a1 a2 a3 a4 a5 a6 a7 ⊢
  have hlen1 := congrArg List.length a1
  simp only [List.length_nil] at a5 a6
  cases ok with
  | true =>
    dsimp only
    have ha5 := a5 rfl
    simp only [List.length_nil] at ha5
    have hnm : NL ∈ mark → False := by
      intro hin
      have := a7 rfl hin
      simp at this
    have r0 : Routed (-(mark.length + 1 : Int)) st st2 := by
      refine ⟨a1, ?_, a2, ?_⟩
      · omega
      · omega
    have r3 := routed_step_s_putch '(' (routed_step_s_putstr mark
      (routed_step_s_putch DQ r0))
    obtain ⟨b1, b2, b3, b4⟩ := r3
    have hlen2 := congrArg List.length b1
    have hx3 : (s_putch '(' (s_putstr mark (s_putch DQ st2))).pos = st2.pos := by
      rw [s_putch_pos, s_putstr_pos, s_putch_pos]
    exact routed_cast (by push_cast; omega) (routed_trans ⟨b1, b2, b3, b4⟩
      ((routed_raw fuel).1 mark _ _ (by rw [b1]; exact hNL) hnm (by omega) (by omega)))
  | false =>
    dsimp only
    have ha6 := a6 rfl
    simp only [List.length_nil] at ha6
    have r0 : Routed (-(mark.length : Int)) st st2 := by
      refine ⟨a1, ?_, a2, ?_⟩
      · omega
      · omega
    have r3 := routed_step_put_quote_str DQ mark (routed_step_s_putch DQ r0)
    obtain ⟨b1, b2, b3, b4⟩ := r3
    have hlen2 := congrArg List.length b1
    have hx3 : (put_quote_str DQ mark (s_putch DQ st2)).pos = st2.pos := by
      rw [put_quote_str_pos, s_putch_pos]
    exact routed_cast (by push_cast; omega) (routed_trans ⟨b1, b2, b3, b4⟩
      (routed_endquote DQ "string literal" fuel _ (by rw [b1]; exact hNL)
        (by omega) (by omega)))

/-- parse_dq_string routes the prefix characters and the double quote its
caller consumed, plus everything it consumes itself. -/
theorem routed_parse_dq_string (pfx : List Char) (fuel : Nat) {st : St}
    (hNL : st.input.getLast? = some NL) (hp : st.pos ≤ st.input.length)
    (hf : st.input.length + 1 ≤ st.pos + fuel) :
    Routed (pfx.length + 1 : Int) st (parse_dq_string pfx fuel st) := by
  unfold parse_dq_string
  dsimp only
  split
  · have r1 := routed_step_s_putstr pfx (routed_warn_ite (st.feat.f_RawString = false) F_RAWSTRING hp)
    obtain ⟨b1, b2, b3, b4⟩ := r1
    have hlen2 := congrArg List.length b1
    have hx1 : (s_putstr pfx (if st.feat.f_RawString = false
        then warn_feature F_RAWSTRING st else st)).pos = st.pos := by
      rw [s_putstr_pos, warn_ite_pos]
    exact routed_cast (by push_cast; omega) (routed_trans ⟨b1, b2, b3, b4⟩
      (routed_parse_raw_string pfx fuel (by rw [b1]; exact hNL) (by omega) (by omega)))
  · have r1 := routed_step_s_putch DQ (routed_step_s_putstr pfx
      (routed_warn_ite (pfx ≠ ['L'] ∧ st.feat.f_Unicode = false) F_UNICODE hp))
    obtain ⟨b1, b2, b3, b4⟩ := r1
    have hlen2 := congrArg List.length b1
    have hx1 : (s_putch DQ (s_putstr pfx (if pfx ≠ ['L'] ∧ st.feat.f_Unicode = false
        then warn_feature F_UNICODE st else st))).pos = st.pos := by
      rw [s_putch_pos, s_putstr_pos, warn_ite_pos]
    exact routed_cast (by push_cast; omega) (routed_trans ⟨b1, b2, b3, b4⟩
      (routed_endquote DQ "string literal" fuel _ (by rw [b1]; exact hNL)
        (by omega) (by omega)))

theorem could_be_ne_nl {c : Char} (h : could_be_string_literal c = true) : c ≠ NL := by
  intro he
  rw [he] at h
  exact absurd h (by decide)

/-- The possible-string-literal loop routes its accumulated prefix (which
its caller consumed) plus everything it consumes, provided the input
ends in a newline: end of input can then never interrupt the loop while
the prefix is still buffered. -/
theorem routed_poss_loop : ∀ (fuel : Nat) (pfx : List Char) (st : St) (lc : Char),
    st.input.getLast? = some NL → st.pos ≤ st.input.length →
    st.input.length + 1 ≤ st.pos + fuel → 1 ≤ st.pos →
    st.input[st.pos - 1]? = some lc → lc ≠ NL →
    Routed (pfx.length : Int) st (poss_loop pfx fuel st) := by
  intro fuel
  induction fuel with
  | zero =>
    intro pfx st lc hNL hp hf hpos hprev hlcnl
    exfalso
    omega
  | succ fuel ih =>
    intro pfx st lc hNL hp hf hpos hprev hlcnl
    have hlt := pos_lt_of_prev_ne_nl hNL hpos hp hprev hlcnl
    obtain ⟨c, hc⟩ := exists_getElem_of_lt hlt
    rw [poss_loop, peek_eq, hc]
    dsimp only
    have hx1 : (getch st).2.pos = st.pos + 1 := getch_pos_some hc
    by_cases h1 : c = SQ
    · rw [if_pos h1]
      have hcx : (s_putstr pfx st).input[(s_putstr pfx st).pos]? = some c := by
        rw [s_putstr_getElem]
        exact hc
      rw [getch_eta_some hcx]
      dsimp only
      have r1 := routed_step_s_putch c (routed_step_getch
        (routed_s_putstr pfx hp) hcx)
      obtain ⟨b1, b2, b3, b4⟩ := r1
      have hlen2 := congrArg List.length b1
      have hx2 : (s_putch c (getch (s_putstr pfx st)).2).pos = st.pos + 1 := by
        rw [s_putch_pos, getch_pos_some hcx, s_putstr_pos]
      exact routed_cast (by push_cast; omega) (routed_trans ⟨b1, b2, b3, b4⟩
        (routed_endquote c "character constant" fuel _ (by rw [b1]; exact hNL)
          (by omega) (by omega)))
    · rw [if_neg h1]
      by_cases h2 : c = DQ
      · rw [if_pos h2]
        split
        · rw [getch_eta_some hc]
          dsimp only
          have r0 := routed_getch hc
          obtain ⟨b1, b2, b3, b4⟩ := r0
          have hlen2 := congrArg List.length b1
          exact routed_cast (by push_cast; omega) (routed_trans ⟨b1, b2, b3, b4⟩
            (routed_parse_dq_string pfx fuel (by rw [b1]; exact hNL)
              (by omega) (by omega)))
        · have hcx : (s_putstr pfx st).input[(s_putstr pfx st).pos]? = some c := by
            rw [s_putstr_getElem]
            exact hc
          rw [getch_eta_some hcx]
          dsimp only
          have r1 := routed_step_s_putch c (routed_step_getch
            (routed_s_putstr pfx hp) hcx)
          obtain ⟨b1, b2, b3, b4⟩ := r1
          have hlen2 := congrArg List.length b1
          have hx2 : (s_putch c (getch (s_putstr pfx st)).2).pos = st.pos + 1 := by
            rw [s_putch_pos, getch_pos_some hcx, s_putstr_pos]
          exact routed_cast (by push_cast; omega) (routed_trans ⟨b1, b2, b3, b4⟩
            (routed_endquote c "character constant" fuel _ (by rw [b1]; exact hNL)
              (by omega) (by omega)))
      · rw [if_neg h2]
        by_cases h3 : could_be_string_literal c
        · rw [if_pos h3]
          rw [getch_eta_some hc]
          dsimp only
          split
          · have r1 := routed_step_s_putstr (pfx ++ [c]) (routed_getch hc)
            obtain ⟨b1, b2, b3, b4⟩ := r1
            have hlen2 := congrArg List.length b1
            have hx2 : (s_putstr (pfx ++ [c]) (getch st).2).pos = st.pos + 1 := by
              rw [s_putstr_pos, hx1]
            exact routed_cast (by push_cast; simp only [List.length_append,
                List.length_cons, List.length_nil]; push_cast; omega)
              (routed_trans ⟨b1, b2, b3, b4⟩
                (routed_read_remainder fuel _ (by omega)))
          · obtain ⟨hprev1, hpos1⟩ := getch_prev hc
            have r0 := routed_getch hc
            obtain ⟨b1, b2, b3, b4⟩ := r0
            have hlen2 := congrArg List.length b1
            exact routed_cast (by simp only [List.length_append, List.length_cons,
                List.length_nil]; push_cast; omega)
              (routed_trans ⟨b1, b2, b3, b4⟩
                (ih (pfx ++ [c]) _ c (by rw [b1]; exact hNL) (by omega) (by omega)
                  hpos1 hprev1 (could_be_ne_nl h3)))
        · rw [if_neg h3]
          have r1 := routed_s_putstr pfx hp
          obtain ⟨b1, b2, b3, b4⟩ := r1
          have hlen2 := congrArg List.length b1
          have hx2 : (s_putstr pfx st).pos = st.pos := s_putstr_pos pfx st
          exact routed_cast (by push_cast; omega) (routed_trans ⟨b1, b2, b3, b4⟩
            (routed_read_remainder fuel _ (by omega)))

/-- parse_identifier routes the character its caller consumed plus
everything it consumes. -/
theorem routed_parse_identifier (c : Char) (fuel : Nat) {st : St}
    (hNL : st.input.getLast? = some NL) (hp : st.pos ≤ st.input.length)
    (hf : st.input.length + 1 ≤ st.pos + fuel) (hpos : 1 ≤ st.pos)
    (hprev : st.input[st.pos - 1]? = some c) (hcnl : c ≠ NL) :
    Routed 1 st (parse_identifier c fuel st) := by
  unfold parse_identifier process_poss_string_literal
  split
  · rename_i h3
    exact routed_cast (by simp) (routed_poss_loop fuel [c] st c hNL hp hf hpos hprev hcnl)
  · have r1 := routed_s_putch c hp
    obtain ⟨b1, b2, b3, b4⟩ := r1
    have hlen2 := congrArg List.length b1
    have hx2 : (s_putch c st).pos = st.pos := s_putch_pos c st
    exact routed_cast (by omega) (routed_trans ⟨b1, b2, b3, b4⟩
      (routed_read_remainder fuel _ (by omega)))

theorem routed_step_warning_ite (P : Prop) [Decidable P] (msg : String) (line : Int)
    {k : Int} {st st2 : St} (h : Routed k st st2) :
    Routed k st (if P then warning msg line st2 else st2) := by
  split
  · exact routed_step_warning _ _ h
  · exact h

theorem routed_refl2 {st st2 : St} (hi : st2.input = st.input) (hpos : st2.pos = st.pos)
    (ht : tot st2 = tot st) (hp : st.pos ≤ st.input.length) : Routed 0 st st2 :=
  ⟨hi, by omega, by omega, by omega⟩

theorem routed_step_lnest {k : Int} {st st2 : St} (v : Int) (h : Routed k st st2) :
    Routed k st { st2 with l_nest := v } :=
  routed_cast (by omega) (routed_trans h (routed_refl2 rfl rfl rfl (routed_hp h)))

theorem routed_step_lcend {k : Int} {st st2 : St} (v : Int) (h : Routed k st st2) :
    Routed k st { st2 with l_cend := v } :=
  routed_cast (by omega) (routed_trans h (routed_refl2 rfl rfl rfl (routed_hp h)))

theorem routed_step_warn_feature {k : Int} {st st2 : St} (f : Feature)
    (h : Routed k st st2) : Routed k st (warn_feature f st2) := by
  unfold warn_feature
  exact routed_step_warning _ _ h

/-- cpp_comment routes the one character its caller consumed. -/
theorem routed_cpp_comment (c oc : Char) {st : St} (hp : st.pos ≤ st.input.length) :
    Routed 1 st (cpp_comment c oc st).2 := by
  unfold cpp_comment
  split
  · exact routed_s_putch c hp
  · exact routed_c_putch c hp

/-- c_comment routes the character its caller consumed plus everything it
consumes itself (splice pairs are re-emitted; the replacement blank and
the optional empty-comment placeholder are uncounted). -/
theorem routed_c_comment (c : Char) (fuel : Nat) {st : St}
    (hp : st.pos ≤ st.input.length) : Routed 1 st (c_comment c fuel st).2 := by
  unfold c_comment
  by_cases h1 : c = '*'
  · rw [if_pos h1]
    obtain ⟨a1, a2, a3, a4⟩ := read_bsnl_spec fuel st hp
    rcases hrb : read_bsnl fuel st with ⟨bsnl, st2⟩
    rw [hrb] at a1 a2 a3 a4
    dsimp only at a1 a2 a3 a4
    have r0 : Routed (-(2 * (bsnl : Int))) st st2 := ⟨a1, by omega, by omega, by omega⟩
    dsimp only
    rw [peek_eq]
    dsimp only
    split
    · rename_i hsl
      have rL : Routed (-(2 * (bsnl : Int))) st { st2 with l_comment := true } :=
        routed_cast (by omega) (routed_trans r0 (routed_refl2 rfl rfl rfl (routed_hp r0)))
      have hgl : ({ st2 with l_comment := true } : St).input[({ st2 with
          l_comment := true } : St).pos]? = some '/' := hsl
      split
      · exact routed_cast (by push_cast; omega)
          (routed_step_s_putch_repl '/' (routed_step_s_putch_repl '*'
            (routed_step_s_putch_repl ' ' (routed_step_c_putch '/'
              (routed_step_write_bsnl_c bsnl (routed_step_c_putch '*'
                (routed_step_getch rL hgl)))))))
      · exact routed_cast (by push_cast; omega)
          (routed_step_s_putch_repl ' ' (routed_step_c_putch '/'
            (routed_step_write_bsnl_c bsnl (routed_step_c_putch '*'
              (routed_step_getch rL hgl)))))
    · exact routed_cast (by push_cast; omega)
        (routed_step_write_bsnl_c bsnl (routed_step_c_putch c r0))
  · rw [if_neg h1]
    by_cases h2 : (st.cfg.warnAboutNestedCStyleComments = true ∧ c = '/')
    · rw [if_pos h2]
      rw [peek_eq]
      dsimp only
      split
      · exact routed_step_c_putch c (routed_step_lnest _
          (routed_step_warning_ite _ _ _ (routed_refl hp)))
      · exact routed_c_putch c hp
    · rw [if_neg h2]
      exact routed_c_putch c hp

theorem alnum_ne_nl {c : Char} (h : isalnumC c = true ∨ c = '_') : c ≠ NL := by
  intro he
  rw [he] at h
  exact absurd h (by decide)

/-- non_comment routes the character its caller consumed plus everything
it consumes itself, provided the input ends in a newline and the fuel
covers the remaining input. -/
theorem routed_non_comment (c : Char) (fuel : Nat) {st : St}
    (hNL : st.input.getLast? = some NL) (hp : st.pos ≤ st.input.length)
    (hf : st.input.length + 1 ≤ st.pos + fuel) (hpos : 1 ≤ st.pos)
    (hprev : st.input[st.pos - 1]? = some c) :
    Routed 1 st (non_comment c fuel st).2 := by
  unfold non_comment
  by_cases h1 : c = '*'
  · rw [if_pos h1]
    obtain ⟨a1, a2, a3, a4⟩ := read_bsnl_spec fuel st hp
    rcases hrb : read_bsnl fuel st with ⟨bsnl, st2⟩
    rw [hrb] at a1 a2 a3 a4
    dsimp only at a1 a2 a3 a4
    have r0 : Routed (-(2 * (bsnl : Int))) st st2 := ⟨a1, by omega, by omega, by omega⟩
    dsimp only
    rw [peek_eq]
    dsimp only
    split
    · rename_i hsl
      exact routed_cast (by push_cast; omega)
        (routed_step_lcend _ (routed_step_warning_ite _ _ _
          (routed_step_s_putch '/' (routed_step_write_bsnl_s bsnl
            (routed_step_s_putch '*' (routed_step_getch r0 hsl))))))
    · exact routed_cast (by push_cast; omega)
        (routed_step_write_bsnl_s bsnl (routed_step_s_putch c r0))
  · rw [if_neg h1]
    by_cases h2 : c = SQ
    · rw [if_pos h2]
      have r1 := routed_s_putch c hp
      obtain ⟨b1, b2, b3, b4⟩ := r1
      have hlen2 := congrArg List.length b1
      have hx2 : (s_putch c st).pos = st.pos := s_putch_pos c st
      exact routed_cast (by omega) (routed_trans ⟨b1, b2, b3, b4⟩
        (routed_endquote c "character constant" fuel _ (by rw [b1]; exact hNL)
          (by omega) (by omega)))
    · rw [if_neg h2]
      by_cases h3 : c = DQ
      · rw [if_pos h3]
        have r1 := routed_s_putch c hp
        obtain ⟨b1, b2, b3, b4⟩ := r1
        have hlen2 := congrArg List.length b1
        have hx2 : (s_putch c st).pos = st.pos := s_putch_pos c st
        exact routed_cast (by omega) (routed_trans ⟨b1, b2, b3, b4⟩
          (routed_endquote c "string literal" fuel _ (by rw [b1]; exact hNL)
            (by omega) (by omega)))
      · rw [if_neg h3]
        by_cases h4 : c = '/'
        · rw [if_pos h4]
          obtain ⟨a1, a2, a3, a4⟩ := read_bsnl_spec fuel st hp
          rcases hrb : read_bsnl fuel st with ⟨bsnl, st2⟩
          rw [hrb] at a1 a2 a3 a4
          dsimp only at a1 a2 a3 a4
          have r0 : Routed (-(2 * (bsnl : Int))) st st2 := ⟨a1, by omega, by omega, by omega⟩
          dsimp only
          rw [peek_eq]
          dsimp only
          split
          · rename_i hsl
            split
            · exact routed_cast (by push_cast; omega)
                (routed_step_s_putch_repl '*' (routed_step_s_putch_repl '/'
                  (routed_step_c_putch '*' (routed_step_write_bsnl_c
                    bsnl (routed_step_c_putch '/'
                      (routed_step_getch r0 hsl))))))
            · exact routed_cast (by push_cast; omega)
                (routed_step_c_putch '*' (routed_step_write_bsnl_c
                  bsnl (routed_step_c_putch '/'
                    (routed_step_getch r0 hsl))))
          · split
            · rename_i hdd
              have hsl3 : (warn_feature F_DOUBLESLASH st2).input[(warn_feature
                  F_DOUBLESLASH st2).pos]? = some '/' := by
                unfold warn_feature
                rw [warning_input, warning_pos]
                exact hdd.2
              rw [getch_eta_some hsl3]
              dsimp only
              exact routed_cast (by push_cast; omega)
                (routed_step_s_putch '/' (routed_step_write_bsnl_s
                  bsnl (routed_step_s_putch '/'
                    (routed_step_getch (routed_step_warn_feature F_DOUBLESLASH r0) hsl3))))
            · split
              · rename_i hdd
                have hsl2 := hdd.2
                rw [getch_eta_some hsl2]
                dsimp only
                split
                · exact routed_cast (by push_cast; omega)
                    (routed_step_s_putch_repl '/' (routed_step_s_putch_repl '/'
                      (routed_step_c_putch '/' (routed_step_write_bsnl_c
                        bsnl (routed_step_c_putch '/'
                          (routed_step_getch r0 hsl2))))))
                · exact routed_cast (by push_cast; omega)
                    (routed_step_c_putch '/' (routed_step_write_bsnl_c
                      bsnl (routed_step_c_putch '/'
                        (routed_step_getch r0 hsl2))))
              · exact routed_cast (by push_cast; omega)
                  (routed_step_write_bsnl_s bsnl
                    (routed_step_s_putch c r0))
        · rw [if_neg h4]
          by_cases h5 : isdigitC c
          · rw [if_pos h5]
            exact routed_parse_number c fuel hp
          · rw [if_neg h5]
            by_cases h6 : c = '.'
            · rw [if_pos h6]
              rw [peek_eq]
              dsimp only
              split
              · exact routed_parse_number c fuel hp
              · split
                · rename_i hcond
                  exact routed_parse_identifier c fuel hNL hp hf hpos hprev
                    (alnum_ne_nl hcond)
                · exact routed_s_putch c hp
            · rw [if_neg h6]
              by_cases h7 : (isalnumC c ∨ c = '_')
              · rw [if_pos h7]
                exact routed_parse_identifier c fuel hNL hp hf hpos hprev
                  (alnum_ne_nl h7)
              · rw [if_neg h7]
                by_cases h8 : c = BSL
                · rw [if_pos h8]
                  rw [peek_eq]
                  dsimp only
                  split
                  · rename_i hsl
                    exact routed_scan_ucn 'u' 4 hsl hp
                  · split
                    · rename_i hsl
                      exact routed_scan_ucn 'U' 8 hsl hp
                    · exact routed_s_putch c hp
                · rw [if_neg h8]
                  exact routed_s_putch c hp

/-- The scc main loop consumes the whole input and routes every consumed
character to exactly one channel, provided the input ends in a newline
and the fuel covers the remaining input. -/
theorem scc_loop_spec : ∀ (fuel : Nat) (oc : Char) (status : Comment) (st : St),
    st.input.getLast? = some NL → st.pos ≤ st.input.length →
    st.input.length + 1 ≤ st.pos + fuel →
    (scc_loop fuel oc status st).2.input = st.input ∧
    (scc_loop fuel oc status st).2.pos = st.input.length ∧
    (tot (scc_loop fuel oc status st).2 : Int) + st.pos = tot st + st.input.length := by
  intro fuel
  induction fuel with
  | zero =>
    intro oc status st hNL hp hf
    exfalso
    omega
  | succ fuel ih =>
    intro oc status st hNL hp hf
    rw [scc_loop]
    cases hc : st.input[st.pos]? with
    | none =>
      rw [getch_none hc]
      dsimp only
      have hle := List.getElem?_eq_none_iff.mp hc
      exact ⟨rfl, by omega, by omega⟩
    | some c =>
      rw [getch_eta_some hc]
      dsimp only
      obtain ⟨hprev1, hpos1⟩ := getch_prev hc
      have hlt := (List.getElem?_eq_some.mp hc).1
      have hx1 : (getch st).2.pos = st.pos + 1 := getch_pos_some hc
      have r0 := routed_getch hc
      cases status with
      | CComment =>
        dsimp only
        have rc := routed_c_comment c fuel (routed_hp r0)
        have r := routed_trans r0 rc
        obtain ⟨b1, b2, b3, b4⟩ := r
        obtain ⟨d1, d2, d3, d4⟩ := rc
        have hlen := congrArg List.length b1
        obtain ⟨c1, c2, c3⟩ := ih c ((c_comment c fuel (getch st).2).1)
          ((c_comment c fuel (getch st).2).2) (by rw [b1]; exact hNL)
          (by rw [b1]; exact b3)
          (by rw [b1]
              rw [hx1] at d2
              omega)
        rw [b1] at c2 c3
        exact ⟨c1.trans b1, c2, by omega⟩
      | CppComment =>
        dsimp only
        have rc := routed_cpp_comment c oc (routed_hp r0)
        have r := routed_trans r0 rc
        obtain ⟨b1, b2, b3, b4⟩ := r
        obtain ⟨d1, d2, d3, d4⟩ := rc
        have hlen := congrArg List.length b1
        obtain ⟨c1, c2, c3⟩ := ih c ((cpp_comment c oc (getch st).2).1)
          ((cpp_comment c oc (getch st).2).2) (by rw [b1]; exact hNL)
          (by rw [b1]; exact b3)
          (by rw [b1]
              rw [hx1] at d2
              omega)
        rw [b1] at c2 c3
        exact ⟨c1.trans b1, c2, by omega⟩
      | NonComment =>
        dsimp only
        have rc := routed_non_comment c fuel (by rw [getch_input]; exact hNL)
          (routed_hp r0)
          (by rw [getch_input, hx1]; omega) hpos1 hprev1
        have r := routed_trans r0 rc
        obtain ⟨b1, b2, b3, b4⟩ := r
        obtain ⟨d1, d2, d3, d4⟩ := rc
        have hlen := congrArg List.length b1
        obtain ⟨c1, c2, c3⟩ := ih c ((non_comment c fuel (getch st).2).1)
          ((non_comment c fuel (getch st).2).2) (by rw [b1]; exact hNL)
          (by rw [b1]; exact b3)
          (by rw [b1]
              rw [hx1] at d2
              omega)
        rw [b1] at c2 c3
        exact ⟨c1.trans b1, c2, by omega⟩

/-- scc consumes the whole input and routes every consumed character to
exactly one of the two channels, for inputs ending in a newline. -/
theorem scc_spec (fuel : Nat) (st : St)
    (hNL : st.input.getLast? = some NL) (hp : st.pos ≤ st.input.length)
    (hf : st.input.length + 1 ≤ st.pos + fuel) :
    (tot (scc fuel st).2 : Int) + st.pos = tot st + st.input.length := by
  unfold scc
  dsimp only
  obtain ⟨c1, c2, c3⟩ := scc_loop_spec fuel NUL Comment.NonComment
    { st with l_nest := 0, l_cend := 0, nline := 1 } hNL hp hf
  split
  · rw [tot_warning]
    exact c3
  · exact c3

/-- C5 (amended): for every input ending in a newline, on every
successful run the two routing counters sum to exactly the input length:
every input character is routed to exactly one of the code and comment
channels and none is dropped or duplicated.  (Without the trailing
newline the raw claim fails: backslash-newline splices are re-emitted
rather than deleted, so the post-splice length undercounts, and an
end-of-input inside a tentatively buffered construct drops the
buffer.) -/
theorem c5_routing_conservation (input : List Char) (cfg : Config)
    (hNL : input.getLast? = some NL) (hok : SCC_ok input cfg = true) :
    tot (finalSt input cfg) = input.length := by
  unfold SCC_ok scc_full at hok
  unfold finalSt scc_full
  cases hsf : set_features cfg.stdCode with
  | error e =>
    rw [hsf] at hok
    exact absurd hok (by simp)
  | ok feat =>
    dsimp only
    have e1 : (mkSt input cfg feat).pos = 0 := rfl
    have e2 : tot (mkSt input cfg feat) = 0 := rfl
    have e3 : (mkSt input cfg feat).input = input := rfl
    have h := scc_spec (input.length + 1) (mkSt input cfg feat) hNL
      (Nat.zero_le _) (by rw [e1, e3]; omega)
    rw [e1, e2, e3] at h
    omega

/-- C5 counterexample to the raw claim: a backslash-newline outside any
comment is routed as two characters though the post-splice logical input
is empty, and a lone string-literal-prefix letter at end of input is
dropped (zero characters routed from a one-character input). -/
theorem c5_counterexample :
    tot (finalSt [BSL, NL] (cfgStd 6)) = 2 ∧ (splice [BSL, NL]).length = 0 ∧
    tot (finalSt ['u'] (cfgStd 6)) = 0 ∧ (splice ['u']).length = 1 := by
  refine ⟨by decide, by decide, by decide, by decide⟩

theorem c5_routing_conservation_witness :
    (['a', '/', '*', 'b', NL] : List Char).getLast? = some NL ∧
    SCC_ok ['a', '/', '*', 'b', NL] (cfgStd 6) = true ∧
    tot (finalSt ['a', '/', '*', 'b', NL] (cfgStd 6))
      = (['a', '/', '*', 'b', NL] : List Char).length :=
  ⟨by decide, by decide,
   c5_routing_conservation ['a', '/', '*', 'b', NL] (cfgStd 6) (by decide) (by decide)⟩

end SCC
